import Mathlib

/-!
Verification of the juicerkle-ui bridge core against its specification.

This file shallowly embeds the algorithmic core of the repository:
- the canonical sucker-pair id and the pair-discovery worklist traversal
  (`src/services/suckerDiscoveryService.ts`),
- the bridge classification tables and probe loop
  (`src/services/bridgeDetectionService.ts`),
- the merkle-proof normalization in `getClaimFunctionData`
  (`src/services/suckerService.ts`),
- the transaction ledger operations (`src/services/bridgeStorageService.ts`),
- the state reconciliation steps (`src/services/bridgeStateService.ts`).

TypeScript strings are modelled as Lean `String` (the sources only compare,
concatenate and lowercase ASCII content), JS numbers holding chain ids,
timestamps, counters as `Nat`, JS `Map` as an insertion-ordered association
list, JS `Set` as a `Finset`, and thrown exceptions as `Option`/absent
oracle entries.
-/

namespace Juicerkle

/-- JS `String.prototype.toLowerCase` restricted to the ASCII content the
sources feed it (chain ids, 0x-addresses, project ids). -/
def jsToLower (s : String) : String :=
  String.map Char.toLower s

/-- The chain-address half of a pair id: `` `${chainId}-${address.toLowerCase()}` ``. -/
def chainAddrKey (chainId : Nat) (address : String) : String :=
  toString chainId ++ "-" ++ jsToLower address

/-- Model of `createSuckerPairId` from `suckerDiscoveryService.ts`: sorts the two
`chainId-address` strings (JS `<` is lexicographic code-unit comparison,
modelled by Lean's lexicographic `String` order) and joins with `:`. -/
def createSuckerPairId (chainAId : Nat) (addressA : String)
    (chainBId : Nat) (addressB : String) : String :=
  let pairA := chainAddrKey chainAId addressA
  let pairB := chainAddrKey chainBId addressB
  if pairA < pairB then pairA ++ ":" ++ pairB else pairB ++ ":" ++ pairA

/-- C4: the canonical pair id is order-independent in its two endpoints,
for all chain ids and addresses in any character casing. -/
theorem createSuckerPairId_symm (cA : Nat) (aA : String) (cB : Nat) (aB : String) :
    createSuckerPairId cA aA cB aB = createSuckerPairId cB aB cA aA := by
  unfold createSuckerPairId
  set pA := chainAddrKey cA aA with hA
  set pB := chainAddrKey cB aB with hB
  rcases lt_trichotomy pA pB with h | h | h
  · rw [if_pos h, if_neg (not_lt_of_lt h)]
  · simp [h]
  · rw [if_neg (not_lt_of_lt h), if_pos h]

/-! ## Bridge detection (`bridgeDetectionService.ts`) -/

/-- The `BridgeType` string union from the bridge types module. -/
inductive BridgeType where
  | arbitrumCanonical
  | optimismCanonical
  | ccip
  | unknown
deriving DecidableEq, Repr

/-- One direction's profile (`BridgeDirectionConfig`). -/
structure BridgeDirectionConfig where
  requiresPayment : Bool
  hasAdditionalSteps : Bool
  estimatedTimeMinutes : Nat
deriving DecidableEq, Repr

/-- Model of `BridgeInfo` with the three directional profiles. -/
structure BridgeInfo where
  type : BridgeType
  displayName : String
  description : String
  l1ToL2 : BridgeDirectionConfig
  l2ToL1 : BridgeDirectionConfig
  l2ToL2 : BridgeDirectionConfig
deriving DecidableEq, Repr

/-- The static `BRIDGE_CONFIGS` table, field for field. -/
def BRIDGE_CONFIGS : BridgeType → BridgeInfo
  | .arbitrumCanonical =>
    { type := .arbitrumCanonical
      displayName := "Arbitrum Canonical Bridge"
      description := "Official Arbitrum bridge for secure cross-chain transfers"
      l1ToL2 := { requiresPayment := false, hasAdditionalSteps := false, estimatedTimeMinutes := 10 }
      l2ToL1 := { requiresPayment := true, hasAdditionalSteps := true, estimatedTimeMinutes := 10080 }
      l2ToL2 := { requiresPayment := true, hasAdditionalSteps := true, estimatedTimeMinutes := 20 } }
  | .optimismCanonical =>
    { type := .optimismCanonical
      displayName := "Optimism Canonical Bridge"
      description := "Official Optimism bridge for secure cross-chain transfers"
      l1ToL2 := { requiresPayment := false, hasAdditionalSteps := false, estimatedTimeMinutes := 5 }
      l2ToL1 := { requiresPayment := false, hasAdditionalSteps := true, estimatedTimeMinutes := 10080 }
      l2ToL2 := { requiresPayment := true, hasAdditionalSteps := true, estimatedTimeMinutes := 15 } }
  | .ccip =>
    { type := .ccip
      displayName := "Chainlink CCIP"
      description := "Chainlink Cross-Chain Interoperability Protocol"
      l1ToL2 := { requiresPayment := true, hasAdditionalSteps := true, estimatedTimeMinutes := 20 }
      l2ToL1 := { requiresPayment := true, hasAdditionalSteps := true, estimatedTimeMinutes := 25 }
      l2ToL2 := { requiresPayment := true, hasAdditionalSteps := true, estimatedTimeMinutes := 30 } }
  | .unknown =>
    { type := .unknown
      displayName := "Unknown Bridge"
      description := "Bridge implementation could not be determined"
      l1ToL2 := { requiresPayment := true, hasAdditionalSteps := true, estimatedTimeMinutes := 30 }
      l2ToL1 := { requiresPayment := true, hasAdditionalSteps := true, estimatedTimeMinutes := 60 }
      l2ToL2 := { requiresPayment := true, hasAdditionalSteps := true, estimatedTimeMinutes := 45 } }

/-- The `DEPLOYER_TO_BRIDGE_TYPE` table, in `Object.entries` order. -/
def DEPLOYER_TO_BRIDGE_TYPE : List (String × BridgeType) :=
  [ ("0x5021c398d556925315c73a8f559d98117723967a", .arbitrumCanonical),
    ("0x8ca8816d6740fe474be2399f5fd7996e79e055a0", .optimismCanonical),
    ("0x5de5ea969fe0f4e2ee9efc50591857fd83ed7095", .optimismCanonical),
    ("0x34b40205b249e5733cf93d86b7c9783b015dd3e7", .ccip),
    ("0xde901ebafc70d545f9d43034308c136ce8c94a5c", .ccip),
    ("0x9d4858cc9d3552507eeabce722787afef64c615e", .ccip) ]

/-- The probe loop of `getSuckerBridgeType`: iterate the deployer table, a
probe answering `some true` wins, `some false` and a thrown probe (`none`,
swallowed per-candidate) both continue; with no positive match the result
is `unknown`. The probe oracle models `deployer.isSucker(suckerAddress)`. -/
def getSuckerBridgeType (probe : String → Option Bool) : BridgeType :=
  go DEPLOYER_TO_BRIDGE_TYPE
where
  go : List (String × BridgeType) → BridgeType
    | [] => .unknown
    | (deployer, bridgeType) :: rest =>
      match probe deployer with
      | some true => bridgeType
      | _ => go rest

/-- Bridge direction as computed by `getBridgeDirection`. -/
inductive BridgeDirection where
  | l1ToL2
  | l2ToL1
  | l2ToL2
deriving DecidableEq, Repr

def L1_CHAINS : List Nat := [1, 11155111]

def L2_CHAINS : List Nat := [10, 8453, 42161, 11155420, 84532, 421614]

/-- Model of `getBridgeDirection`: static L1/L2 classification of the two chain ids,
defaulting to `l2ToL2` for unknown combinations. -/
def getBridgeDirection (sourceChainId targetChainId : Nat) : BridgeDirection :=
  let isSourceL1 := sourceChainId ∈ L1_CHAINS
  let isTargetL1 := targetChainId ∈ L1_CHAINS
  let isSourceL2 := sourceChainId ∈ L2_CHAINS
  let isTargetL2 := targetChainId ∈ L2_CHAINS
  if isSourceL1 ∧ isTargetL2 then .l1ToL2
  else if isSourceL2 ∧ isTargetL1 then .l2ToL1
  else if isSourceL2 ∧ isTargetL2 then .l2ToL2
  else .l2ToL2

/-- Profile lookup by direction (`bridgeInfo[direction]`). -/
def directionProfile (info : BridgeInfo) : BridgeDirection → BridgeDirectionConfig
  | .l1ToL2 => info.l1ToL2
  | .l2ToL1 => info.l2ToL1
  | .l2ToL2 => info.l2ToL2

/-- Model of `getBridgeDirectionConfig`. -/
def getBridgeDirectionConfig (bridgeType : BridgeType)
    (sourceChainId targetChainId : Nat) : BridgeDirectionConfig :=
  directionProfile (BRIDGE_CONFIGS bridgeType) (getBridgeDirection sourceChainId targetChainId)

/-- Model of `SuckerBridgeInfo`, the cached classification record. -/
structure SuckerBridgeInfo where
  suckerAddress : String
  chainId : Nat
  deployerAddress : String
  bridgeInfo : BridgeInfo
deriving DecidableEq, Repr

/-! ## JS `Map` model: insertion-ordered association list.
`set` replaces the value of an existing key in place and appends a fresh
key at the end; `get` is the (unique) binding of the key. -/

/-- JS `Map.prototype.set`. -/
def jsMapSet {K V : Type} [DecidableEq K] : List (K × V) → K → V → List (K × V)
  | [], k, v => [(k, v)]
  | (k', v') :: rest, k, v =>
    if k' = k then (k, v) :: rest else (k', v') :: jsMapSet rest k v

/-- JS `Map.prototype.get` (`none` for a missing key). -/
def jsMapGet {K V : Type} [DecidableEq K] (m : List (K × V)) (k : K) : Option V :=
  (m.find? (fun e => e.1 = k)).map Prod.snd

/-- JS `Map.prototype.values`, in insertion order. -/
def jsMapValues {K V : Type} (m : List (K × V)) : List V :=
  m.map Prod.snd

section JsMapLemmas

variable {K V : Type} [DecidableEq K]

lemma jsMapGet_eq_none_iff (m : List (K × V)) (k : K) :
    jsMapGet m k = none ↔ k ∉ m.map Prod.fst := by
  unfold jsMapGet
  rw [Option.map_eq_none', List.find?_eq_none]
  constructor
  · intro h hk
    obtain ⟨p, hp, hpk⟩ := List.mem_map.mp hk
    exact absurd (by simpa using hpk) (by simpa using h p hp)
  · intro h p hp
    simp only [decide_eq_true_eq]
    intro hpk
    exact h (List.mem_map.mpr ⟨p, hp, hpk⟩)

lemma jsMapGet_eq_some_mem {m : List (K × V)} {k : K} {v : V}
    (h : jsMapGet m k = some v) : (k, v) ∈ m := by
  unfold jsMapGet at h
  obtain ⟨p, hfind, hsnd⟩ := Option.map_eq_some.mp h
  have hmem := List.mem_of_find?_eq_some hfind
  have hkey : p.1 = k := by
    have := List.find?_some hfind
    simpa using this
  have : p = (k, v) := by
    cases p
    simp only at hkey hsnd
    rw [hkey, hsnd]
  rwa [this] at hmem

lemma mem_jsMapSet {m : List (K × V)} {k : K} {v : V} {p : K × V}
    (h : p ∈ jsMapSet m k v) : p = (k, v) ∨ p ∈ m := by
  induction m with
  | nil => simpa [jsMapSet] using h
  | cons e rest ih =>
    by_cases he : e.1 = k
    · rcases e with ⟨ek, ev⟩
      simp only [jsMapSet, if_pos he] at h
      rcases List.mem_cons.mp h with h | h
      · exact Or.inl h
      · exact Or.inr (List.mem_cons_of_mem _ h)
    · rcases e with ⟨ek, ev⟩
      simp only [jsMapSet, if_neg he] at h
      rcases List.mem_cons.mp h with h | h
      · exact Or.inr (by rw [h]; exact List.mem_cons_self _ _)
      · rcases ih h with h | h
        · exact Or.inl h
        · exact Or.inr (List.mem_cons_of_mem _ h)

lemma jsMapSet_self_mem (m : List (K × V)) (k : K) (v : V) :
    (k, v) ∈ jsMapSet m k v := by
  induction m with
  | nil => simp [jsMapSet]
  | cons e rest ih =>
    by_cases he : e.1 = k
    · simp [jsMapSet, he]
    · simp only [jsMapSet, if_neg he]
      exact List.mem_cons_of_mem _ ih

lemma mem_jsMapSet_of_ne {m : List (K × V)} {p : K × V} (k : K) (v : V)
    (hp : p ∈ m) (hne : p.1 ≠ k) : p ∈ jsMapSet m k v := by
  induction m with
  | nil => cases hp
  | cons e rest ih =>
    by_cases he : e.1 = k
    · simp only [jsMapSet, if_pos he]
      rcases List.mem_cons.mp hp with h | h
      · exact absurd (h ▸ he) hne
      · exact List.mem_cons_of_mem _ h
    · simp only [jsMapSet, if_neg he]
      rcases List.mem_cons.mp hp with h | h
      · rw [h]; exact List.mem_cons_self _ _
      · exact List.mem_cons_of_mem _ (ih h)

lemma jsMapSet_keys_of_mem {m : List (K × V)} {k : K} (v : V)
    (h : k ∈ m.map Prod.fst) :
    (jsMapSet m k v).map Prod.fst = m.map Prod.fst := by
  induction m with
  | nil => simp at h
  | cons e rest ih =>
    by_cases he : e.1 = k
    · simp [jsMapSet, he]
    · simp only [jsMapSet, if_neg he, List.map_cons]
      rw [List.map_cons] at h
      rcases List.mem_cons.mp h with h | h
      · exact absurd h.symm he
      · rw [ih h]

lemma jsMapSet_keys_of_not_mem {m : List (K × V)} {k : K} (v : V)
    (h : k ∉ m.map Prod.fst) :
    (jsMapSet m k v).map Prod.fst = m.map Prod.fst ++ [k] := by
  induction m with
  | nil => simp [jsMapSet]
  | cons e rest ih =>
    have he : e.1 ≠ k := by
      intro hc
      exact h (by simp [hc])
    have hrest : k ∉ rest.map Prod.fst := by
      intro hc
      exact h (by simp [hc])
    simp only [jsMapSet, if_neg he, List.map_cons, ih hrest, List.cons_append]

lemma jsMapSet_eq_append_of_not_mem {m : List (K × V)} {k : K} (v : V)
    (h : k ∉ m.map Prod.fst) :
    jsMapSet m k v = m ++ [(k, v)] := by
  induction m with
  | nil => simp [jsMapSet]
  | cons e rest ih =>
    have he : e.1 ≠ k := by
      intro hc
      exact h (by simp [hc])
    have hrest : k ∉ rest.map Prod.fst := by
      intro hc
      exact h (by simp [hc])
    simp only [jsMapSet, if_neg he, ih hrest, List.cons_append]

lemma jsMapSet_length_le (m : List (K × V)) (k : K) (v : V) :
    (jsMapSet m k v).length ≤ m.length + 1 := by
  induction m with
  | nil => simp [jsMapSet]
  | cons e rest ih =>
    by_cases he : e.1 = k
    · simp [jsMapSet, he]
    · simp only [jsMapSet, if_neg he, List.length_cons]
      omega

lemma jsMapSet_length_of_mem {m : List (K × V)} {k : K} (v : V)
    (h : k ∈ m.map Prod.fst) :
    (jsMapSet m k v).length = m.length := by
  have := congrArg List.length (jsMapSet_keys_of_mem v h)
  simpa using this

end JsMapLemmas

/-! ## `detectSuckerBridge` with its process-lifetime cache. -/

/-- One `detectSuckerBridge` call. `clientOk` is whether `createClient`
succeeds for this chain id (its throw is the only escape of the `try`
block, since per-deployer probe errors are swallowed inside
`getSuckerBridgeType`). Returns the result, the updated cache, and whether
the deployer-probe phase ran at all. -/
def detectSuckerBridge (cache : List (String × SuckerBridgeInfo))
    (chainId : Nat) (suckerAddress : String)
    (clientOk : Bool) (probe : String → Option Bool) :
    SuckerBridgeInfo × List (String × SuckerBridgeInfo) × Bool :=
  let cacheKey := toString chainId ++ "-" ++ jsToLower suckerAddress
  match jsMapGet cache cacheKey with
  | some cached => (cached, cache, false)
  | none =>
    if clientOk then
      let bridgeType := getSuckerBridgeType probe
      let result : SuckerBridgeInfo :=
        { suckerAddress := jsToLower suckerAddress
          chainId := chainId
          deployerAddress := "detected"
          bridgeInfo := BRIDGE_CONFIGS bridgeType }
      (result, jsMapSet cache cacheKey result, true)
    else
      let fallbackResult : SuckerBridgeInfo :=
        { suckerAddress := jsToLower suckerAddress
          chainId := chainId
          deployerAddress := "unknown"
          bridgeInfo := BRIDGE_CONFIGS .unknown }
      (fallbackResult, jsMapSet cache cacheKey fallbackResult, false)

/-- Model of `clearCache`. -/
def clearBridgeCache : List (String × SuckerBridgeInfo) := []

lemma getSuckerBridgeType_go_unknown (probe : String → Option Bool)
    (l : List (String × BridgeType)) (h : ∀ d ∈ l, probe d.1 ≠ some true) :
    getSuckerBridgeType.go probe l = .unknown := by
  induction l with
  | nil => rfl
  | cons d rest ih =>
    have hd := h d (List.mem_cons_self d rest)
    have hrest : ∀ e ∈ rest, probe e.1 ≠ some true :=
      fun e he => h e (List.mem_cons_of_mem d he)
    unfold getSuckerBridgeType.go
    rcases hp : probe d.1 with _ | b
    · exact ih hrest
    · cases b
      · exact ih hrest
      · exact absurd hp hd

lemma jsMapGet_jsMapSet_self {K V : Type} [DecidableEq K]
    (m : List (K × V)) (k : K) (v : V) :
    jsMapGet (jsMapSet m k v) k = some v := by
  induction m with
  | nil => simp [jsMapSet, jsMapGet]
  | cons e rest ih =>
    by_cases he : e.1 = k
    · simp [jsMapSet, jsMapGet, he]
    · simp only [jsMapSet, jsMapGet]
      rw [if_neg he]
      simp only [List.find?_cons, decide_eq_true_eq, he, decide_eq_false he.elim]
      exact ih

/-- C6 counterexample: the claim that the `unknown` classification carries
the largest `estimatedTimeMinutes` for every direction fails for L2→L1,
where the unknown profile estimates 60 minutes but the Arbitrum canonical
bridge's profile estimates 10080 minutes. -/
theorem unknownProfile_not_max_l2ToL1 :
    ¬ ∀ t : BridgeType,
        (directionProfile (BRIDGE_CONFIGS t) .l2ToL1).estimatedTimeMinutes ≤
        (directionProfile (BRIDGE_CONFIGS .unknown) .l2ToL1).estimatedTimeMinutes := by
  intro h
  exact absurd (h .arbitrumCanonical) (by decide)

/-- C6 amended: a sucker address claimed by no known deployer classifies as
`unknown`; the unknown profile has `requiresPayment = true` and
`hasAdditionalSteps = true` in every direction, and its estimated time is
the largest among the bridge types' profiles for the L1→L2 and L2→L2
directions (for L2→L1 it is not: see the counterexample). -/
theorem classify_unclaimed_conservative (probe : String → Option Bool)
    (h : ∀ d ∈ DEPLOYER_TO_BRIDGE_TYPE, probe d.1 ≠ some true) :
    getSuckerBridgeType probe = .unknown ∧
    (∀ dir : BridgeDirection,
      (directionProfile (BRIDGE_CONFIGS .unknown) dir).requiresPayment = true ∧
      (directionProfile (BRIDGE_CONFIGS .unknown) dir).hasAdditionalSteps = true) ∧
    (∀ t : BridgeType,
      (directionProfile (BRIDGE_CONFIGS t) .l1ToL2).estimatedTimeMinutes ≤
      (directionProfile (BRIDGE_CONFIGS .unknown) .l1ToL2).estimatedTimeMinutes) ∧
    (∀ t : BridgeType,
      (directionProfile (BRIDGE_CONFIGS t) .l2ToL2).estimatedTimeMinutes ≤
      (directionProfile (BRIDGE_CONFIGS .unknown) .l2ToL2).estimatedTimeMinutes) := by
  refine ⟨getSuckerBridgeType_go_unknown probe DEPLOYER_TO_BRIDGE_TYPE h, ?_, ?_, ?_⟩
  · intro dir; cases dir <;> exact ⟨rfl, rfl⟩
  · intro t; cases t <;> decide
  · intro t; cases t <;> decide

/-- Witness for `classify_unclaimed_conservative` at the always-throwing
probe. -/
theorem classify_unclaimed_conservative_witness :
    getSuckerBridgeType (fun _ => none) = .unknown ∧
    (∀ dir : BridgeDirection,
      (directionProfile (BRIDGE_CONFIGS .unknown) dir).requiresPayment = true ∧
      (directionProfile (BRIDGE_CONFIGS .unknown) dir).hasAdditionalSteps = true) ∧
    (∀ t : BridgeType,
      (directionProfile (BRIDGE_CONFIGS t) .l1ToL2).estimatedTimeMinutes ≤
      (directionProfile (BRIDGE_CONFIGS .unknown) .l1ToL2).estimatedTimeMinutes) ∧
    (∀ t : BridgeType,
      (directionProfile (BRIDGE_CONFIGS t) .l2ToL2).estimatedTimeMinutes ≤
      (directionProfile (BRIDGE_CONFIGS .unknown) .l2ToL2).estimatedTimeMinutes) :=
  classify_unclaimed_conservative (fun _ => none) (by intro d _ hcontra; cases hcontra)

/-- The fallback record stored when the probe phase of `detectSuckerBridge`
throws. -/
def unknownFallback (chainId : Nat) (suckerAddress : String) : SuckerBridgeInfo :=
  { suckerAddress := jsToLower suckerAddress
    chainId := chainId
    deployerAddress := "unknown"
    bridgeInfo := BRIDGE_CONFIGS .unknown }

/-- C10: when the probe phase throws on a cache miss, the unknown fallback
is cached under the same `chainId-lowercased address` key a success would
use, and every later call for that sucker returns the cached fallback
without running any probe — until the cache is cleared, after which the
probe phase runs again. -/
theorem detect_failure_caches_fallback (cache : List (String × SuckerBridgeInfo))
    (chainId : Nat) (suckerAddress : String) (probe : String → Option Bool)
    (hmiss : jsMapGet cache (toString chainId ++ "-" ++ jsToLower suckerAddress) = none) :
    (detectSuckerBridge cache chainId suckerAddress false probe =
      (unknownFallback chainId suckerAddress,
       jsMapSet cache (toString chainId ++ "-" ++ jsToLower suckerAddress)
         (unknownFallback chainId suckerAddress), false)) ∧
    (∀ (clientOk2 : Bool) (probe2 : String → Option Bool),
      detectSuckerBridge
        (jsMapSet cache (toString chainId ++ "-" ++ jsToLower suckerAddress)
          (unknownFallback chainId suckerAddress))
        chainId suckerAddress clientOk2 probe2 =
      (unknownFallback chainId suckerAddress,
       jsMapSet cache (toString chainId ++ "-" ++ jsToLower suckerAddress)
         (unknownFallback chainId suckerAddress), false)) ∧
    (∀ probe2 : String → Option Bool,
      (detectSuckerBridge clearBridgeCache chainId suckerAddress true probe2).2.2 = true) := by
  refine ⟨?_, ?_, ?_⟩
  · simp [detectSuckerBridge, hmiss, unknownFallback]
  · intro clientOk2 probe2
    simp [detectSuckerBridge, jsMapGet_jsMapSet_self]
  · intro probe2
    simp [detectSuckerBridge, clearBridgeCache, jsMapGet]

/-- Witness for `detect_failure_caches_fallback` on the empty cache. -/
theorem detect_failure_caches_fallback_witness :
    (detectSuckerBridge [] 1 "0xAB" false (fun _ => none) =
      (unknownFallback 1 "0xAB",
       jsMapSet [] (toString 1 ++ "-" ++ jsToLower "0xAB") (unknownFallback 1 "0xAB"),
       false)) ∧
    (∀ (clientOk2 : Bool) (probe2 : String → Option Bool),
      detectSuckerBridge
        (jsMapSet [] (toString 1 ++ "-" ++ jsToLower "0xAB") (unknownFallback 1 "0xAB"))
        1 "0xAB" clientOk2 probe2 =
      (unknownFallback 1 "0xAB",
       jsMapSet [] (toString 1 ++ "-" ++ jsToLower "0xAB") (unknownFallback 1 "0xAB"),
       false)) ∧
    (∀ probe2 : String → Option Bool,
      (detectSuckerBridge clearBridgeCache 1 "0xAB" true probe2).2.2 = true) :=
  detect_failure_caches_fallback [] 1 "0xAB" (fun _ => none) (by rfl)

/-! ## Proof normalization inside `getClaimFunctionData` (`suckerService.ts`) -/

/-- JS `n.toString(16)` for a nonnegative integer: lowercase hex digits. -/
def jsNumToString16 (n : Nat) : String :=
  String.mk (Nat.toDigits 16 n)

/-- JS `s.padStart(2, '0')`. -/
def padStartZero2 (s : String) : String :=
  if s.length < 2 then String.mk (List.replicate (2 - s.length) '0') ++ s else s

/-- The 32-byte zero hash used for padding. -/
def ZERO_HASH : String :=
  "0x0000000000000000000000000000000000000000000000000000000000000000"

/-- A backend proof element at runtime: either an array of byte values or a
hex string (the tagged union `string | number[]` of the conversion). -/
inductive ProofElem where
  | bytes (arr : List Nat)
  | hexStr (s : String)
deriving DecidableEq, Repr

/-- JS `s.startsWith('0x')`, written on the character list so that it
evaluates inside the kernel. -/
def startsWith0x (s : String) : Bool :=
  match s.data with
  | '0' :: 'x' :: _ => true
  | _ => false

/-- The per-element conversion in `getClaimFunctionData`: a byte array
becomes `'0x' + bytes.map(b => b.toString(16).padStart(2, '0')).join('')`;
a string gets a `0x` prefix when missing and is otherwise passed through. -/
def convertProofElem : ProofElem → String
  | .bytes arr =>
    "0x" ++ String.join (arr.map (fun b => padStartZero2 (jsNumToString16 b)))
  | .hexStr s =>
    if startsWith0x s then s else "0x" ++ s

/-- The `while (paddedProof.length < 32) paddedProof.push(ZERO)` loop. -/
def padLoop (l : List String) : List String :=
  if h : l.length < 32 then padLoop (l ++ [ZERO_HASH]) else l
termination_by 32 - l.length
decreasing_by simp only [List.length_append, List.length_cons, List.length_nil]; omega

/-- The proof normalization of `getClaimFunctionData`: convert each
element, right-pad with the zero hash to at least 32 entries, then
`slice(0, 32)`. -/
def normalizeProof (proof : List ProofElem) : List String :=
  (padLoop (proof.map convertProofElem)).take 32

lemma padLoop_eq (l : List String) :
    padLoop l = l ++ List.replicate (32 - l.length) ZERO_HASH := by
  have key : ∀ (n : Nat) (l : List String), 32 - l.length ≤ n →
      padLoop l = l ++ List.replicate (32 - l.length) ZERO_HASH := by
    intro n
    induction n with
    | zero =>
      intro l hl
      have h32 : ¬ l.length < 32 := by omega
      rw [padLoop, dif_neg h32]
      have : 32 - l.length = 0 := by omega
      rw [this, List.replicate_zero, List.append_nil]
    | succ n ih =>
      intro l hl
      by_cases h32 : l.length < 32
      · rw [padLoop, dif_pos h32]
        rw [ih (l ++ [ZERO_HASH]) (by simp; omega)]
        rw [List.append_assoc]
        congr 1
        simp only [List.length_append, List.length_cons, List.length_nil,
          List.singleton_append]
        rw [← List.replicate_succ]
        congr 1
        omega
      · rw [padLoop, dif_neg h32]
        have : 32 - l.length = 0 := by omega
        rw [this, List.replicate_zero, List.append_nil]
  exact key (32 - l.length) l le_rfl

/-- Predicate of the claim: a `0x`-prefixed lowercase hex string of fixed
32-byte (64 hex digit) width. -/
def isFixedWidthLowerHex (s : String) : Bool :=
  s.length == 66 && startsWith0x s &&
    (s.data.drop 2).all (fun c => c.isDigit || ('a' ≤ c && c ≤ 'f'))

/-- C2 counterexample: a hex-string proof element is passed through
unmodified (only a missing `0x` prefix would be added), so the input
`["0xFF"]` yields `"0xFF"` as its first normalized element — neither
lowercase nor of fixed 32-byte width. -/
theorem normalizeProof_element_not_normalized :
    (normalizeProof [ProofElem.hexStr "0xFF"]).head? = some "0xFF" ∧
    isFixedWidthLowerHex "0xFF" = false := by
  constructor
  · rw [normalizeProof, padLoop_eq]
    decide
  · decide

/-- C2 amended: `normalizeProof` always returns exactly 32 elements: each
supplied element converted by `convertProofElem` (byte arrays to
`0x`-prefixed lowercase hex, strings passed through with a `0x` prefix
ensured), an input of fewer than 32 elements right-padded with the zero
hash, and an input of more than 32 truncated to its first 32. -/
theorem normalizeProof_shape (proof : List ProofElem) :
    normalizeProof proof =
      (proof.map convertProofElem ++
        List.replicate (32 - proof.length) ZERO_HASH).take 32 ∧
    (normalizeProof proof).length = 32 := by
  have heq : normalizeProof proof =
      (proof.map convertProofElem ++
        List.replicate (32 - proof.length) ZERO_HASH).take 32 := by
    rw [normalizeProof, padLoop_eq, List.length_map]
  refine ⟨heq, ?_⟩
  rw [heq]
  simp only [List.length_take, List.length_append, List.length_map,
    List.length_replicate]
  omega

/-! ## Transaction data model (`bridgeStorageService.ts`, `bridgeStateService.ts`) -/

/-- The `TransactionStatus` values the services handle (the cases of
`getStatusDescription`/`getStatusProgress` and the literals used across the
components). -/
inductive TransactionStatus where
  | pending
  | confirmed
  | waiting_to_send
  | sent_to_remote
  | ready_to_claim
  | claimed
deriving DecidableEq, Repr

/-- The string literal of each status in the source. -/
def statusName : TransactionStatus → String
  | .pending => "pending"
  | .confirmed => "confirmed"
  | .waiting_to_send => "waiting_to_send"
  | .sent_to_remote => "sent_to_remote"
  | .ready_to_claim => "ready_to_claim"
  | .claimed => "claimed"

/-- Model of `getStatusProgress` from `bridgeStateService.ts` (0-100). -/
def getStatusProgress : TransactionStatus → Nat
  | .pending => 20
  | .confirmed => 30
  | .waiting_to_send => 40
  | .sent_to_remote => 60
  | .ready_to_claim => 80
  | .claimed => 100

/-- Model of `JBLeaf` (backend claim leaf, string-typed fields). -/
structure JBLeaf where
  Index : String
  Beneficiary : String
  ProjectTokenCount : String
  TerminalTokenAmount : String
deriving DecidableEq, Repr

/-- Model of `JBClaim` (backend claim record; the proof payload is kept abstract as
hex strings here — its shape only matters to `normalizeProof`). -/
structure JBClaim where
  Token : String
  Leaf : JBLeaf
  Proof : List String
deriving DecidableEq, Repr

/-- Model of `StoredBridgeTransaction`, the ledger's unit of record. -/
structure StoredBridgeTransaction where
  id : String
  transactionHash : String
  projectId : String
  sourceChainId : Nat
  targetChainId : Nat
  suckerAddress : String
  beneficiary : String
  token : String
  projectTokenCount : String
  terminalTokenAmount : String
  minTokensReclaimed : String
  hashed : String
  index : String
  root : String
  caller : String
  claimProof : Option (List String)
  claimLeaf : Option JBLeaf
  timestamp : Nat
  status : TransactionStatus
deriving DecidableEq, Repr

/-- JS `parseInt` on the decimal strings the ledger stores in `index`
(`uint256.toString()` of the outbox event): the value of the leading digit
prefix, `none` for `NaN` (no leading digit). -/
def jsParseIntNat (s : String) : Option Nat :=
  match s.data with
  | [] => none
  | c :: _ =>
    if c.isDigit then
      some ((s.data.takeWhile Char.isDigit).foldl
        (fun acc c => acc * 10 + (c.toNat - 48)) 0)
    else none

/-- JS truthiness of the `index` string field (`if (tx.index)`). -/
def indexTruthy (tx : StoredBridgeTransaction) : Bool :=
  tx.index ≠ ""

/-- Model of `BridgeStateInfo` as produced per transaction by the reconciler. -/
structure BridgeStateInfo where
  transactionId : String
  currentStatus : TransactionStatus
  previousStatus : TransactionStatus
  statusChanged : Bool
  outboxIndex : Option Nat
  numberOfClaimsSent : Option Nat
deriving DecidableEq, Repr

/-- The per-transaction body of `checkTransactionStatesBatch`, given the
group's cached outbox `numberOfClaimsSent`. The second component is the
`updateTransactionStatus` persistence call, issued only on change. (The
surrounding filter admits `confirmed`, `waiting_to_send` and
`sent_to_remote` transactions.) -/
def checkTransactionBatchStep (tx : StoredBridgeTransaction)
    (numberOfClaimsSent : Nat) :
    BridgeStateInfo × Option (String × TransactionStatus) :=
  let previousStatus := tx.status
  let withIndex := indexTruthy tx
  let outboxIndex := if withIndex then jsParseIntNat tx.index else none
  let currentStatus :=
    match outboxIndex with
    | some i => if i < numberOfClaimsSent then .sent_to_remote else previousStatus
    | none => previousStatus
  ( { transactionId := tx.id
      currentStatus := currentStatus
      previousStatus := previousStatus
      statusChanged := currentStatus ≠ previousStatus
      outboxIndex := outboxIndex
      numberOfClaimsSent := if withIndex then some numberOfClaimsSent else none },
    if currentStatus ≠ previousStatus then some (tx.id, currentStatus) else none )

/-- The batch reconciler's effect on a transaction's status
(`checkTransactionStatesBatch`, including its status filter). -/
def reconcileBatchStatus (tx : StoredBridgeTransaction)
    (numberOfClaimsSent : Nat) : TransactionStatus :=
  if tx.status = .confirmed ∨ tx.status = .waiting_to_send ∨ tx.status = .sent_to_remote then
    (checkTransactionBatchStep tx numberOfClaimsSent).1.currentStatus
  else tx.status

/-- The single-transaction reconciler's effect on a transaction's status
(`checkTransactionState`, whose gate admits only `confirmed` and
`waiting_to_send`). -/
def reconcileSingleStatus (tx : StoredBridgeTransaction)
    (numberOfClaimsSent : Nat) : TransactionStatus :=
  if (tx.status = .confirmed ∨ tx.status = .waiting_to_send) ∧ indexTruthy tx then
    match jsParseIntNat tx.index with
    | some i => if i < numberOfClaimsSent then .sent_to_remote else tx.status
    | none => tx.status
  else tx.status

lemma jsParseIntNat_ne_empty {s : String} {i : Nat}
    (h : jsParseIntNat s = some i) : s ≠ "" := by
  intro he
  rw [he] at h
  exact Option.noConfusion h

lemma checkTransactionBatchStep_currentStatus (tx : StoredBridgeTransaction)
    (n i : Nat) (hT : indexTruthy tx = true)
    (hp : jsParseIntNat tx.index = some i) :
    (checkTransactionBatchStep tx n).1.currentStatus =
      if i < n then .sent_to_remote else tx.status := by
  unfold checkTransactionBatchStep
  simp [hT, hp]

lemma checkTransactionBatchStep_persist (tx : StoredBridgeTransaction)
    (n i : Nat) (hT : indexTruthy tx = true)
    (hp : jsParseIntNat tx.index = some i) :
    (checkTransactionBatchStep tx n).2 =
      if (if i < n then TransactionStatus.sent_to_remote else tx.status) ≠ tx.status
      then some (tx.id, if i < n then TransactionStatus.sent_to_remote else tx.status)
      else none := by
  unfold checkTransactionBatchStep
  simp [hT, hp]

/-- C3: for a transaction the batch reconciler admits (status `confirmed`,
`waiting_to_send` or `sent_to_remote`) whose `index` parses to `i`, against
an outbox snapshot with `numberOfClaimsSent = n`: if `i < n` the status
becomes `sent_to_remote` and the change is persisted exactly when the
status actually changes; if `i ≥ n` the status is unchanged and nothing is
persisted. -/
theorem outboxIndex_threshold (tx : StoredBridgeTransaction) (n i : Nat)
    (hstatus : tx.status = .confirmed ∨ tx.status = .waiting_to_send ∨
      tx.status = .sent_to_remote)
    (hparse : jsParseIntNat tx.index = some i) :
    (i < n →
      (checkTransactionBatchStep tx n).1.currentStatus = .sent_to_remote ∧
      ((checkTransactionBatchStep tx n).2 = some (tx.id, .sent_to_remote) ↔
        tx.status ≠ .sent_to_remote)) ∧
    (n ≤ i →
      (checkTransactionBatchStep tx n).1.currentStatus = tx.status ∧
      (checkTransactionBatchStep tx n).2 = none) := by
  have htruthy : indexTruthy tx = true := by
    simp [indexTruthy, jsParseIntNat_ne_empty hparse]
  have hcs := checkTransactionBatchStep_currentStatus tx n i htruthy hparse
  have hps := checkTransactionBatchStep_persist tx n i htruthy hparse
  constructor
  · intro hlt
    rw [if_pos hlt] at hcs hps
    refine ⟨hcs, ?_⟩
    rw [hps]
    by_cases hst : tx.status = TransactionStatus.sent_to_remote
    · simp [hst]
    · have h2 : TransactionStatus.sent_to_remote ≠ tx.status := Ne.symm hst
      simp [h2, hst]
  · intro hge
    have hnlt : ¬ i < n := not_lt.mpr hge
    rw [if_neg hnlt] at hcs hps
    refine ⟨hcs, ?_⟩
    rw [hps]
    simp

/-- A concrete ledger transaction used to instantiate theorems. -/
def sampleTx : StoredBridgeTransaction :=
  { id := "bridge-1-abc"
    transactionHash := "0xhash"
    projectId := "3"
    sourceChainId := 1
    targetChainId := 10
    suckerAddress := "0xsucker"
    beneficiary := "0xbenef"
    token := "0xtoken"
    projectTokenCount := "100"
    terminalTokenAmount := "100"
    minTokensReclaimed := "0"
    hashed := "0xh"
    index := "3"
    root := "0xr"
    caller := "0xc"
    claimProof := none
    claimLeaf := none
    timestamp := 1700000000000
    status := .waiting_to_send }

/-- Witness for `outboxIndex_threshold`: with `numberOfClaimsSent = 5`,
index 3 transitions (and persists) while index 7 does not. -/
theorem outboxIndex_threshold_witness :
    ((3 < 5 →
      (checkTransactionBatchStep sampleTx 5).1.currentStatus = .sent_to_remote ∧
      ((checkTransactionBatchStep sampleTx 5).2 =
          some (sampleTx.id, .sent_to_remote) ↔
        sampleTx.status ≠ .sent_to_remote)) ∧
     (5 ≤ 3 →
      (checkTransactionBatchStep sampleTx 5).1.currentStatus = sampleTx.status ∧
      (checkTransactionBatchStep sampleTx 5).2 = none)) ∧
    ((7 < 5 →
      (checkTransactionBatchStep { sampleTx with index := "7" } 5).1.currentStatus =
        .sent_to_remote ∧
      ((checkTransactionBatchStep { sampleTx with index := "7" } 5).2 =
          some (({ sampleTx with index := "7" } :
            StoredBridgeTransaction).id, .sent_to_remote) ↔
        ({ sampleTx with index := "7" } :
          StoredBridgeTransaction).status ≠ .sent_to_remote)) ∧
     (5 ≤ 7 →
      (checkTransactionBatchStep { sampleTx with index := "7" } 5).1.currentStatus =
        ({ sampleTx with index := "7" } : StoredBridgeTransaction).status ∧
      (checkTransactionBatchStep { sampleTx with index := "7" } 5).2 = none)) :=
  ⟨outboxIndex_threshold sampleTx 5 3 (Or.inr (Or.inl rfl)) (by decide),
   outboxIndex_threshold { sampleTx with index := "7" } 5 7
     (Or.inr (Or.inl rfl)) (by decide)⟩

/-! ## C1: the status state machine over runs of the system's operations. -/

/-- The operations that mutate a transaction's status: the two reconciler
variants (`checkTransactionStatesBatch`, `checkTransactionState`), the
backend claim-data attachment (`checkBackendForClaimData` matching a claim
to a `sent_to_remote` transaction lacking proof data and calling
`updateTransactionWithClaimData`), and the claim-execution path (the claim
component calling `updateTransactionStatus(id, 'claimed')` when the status
is not already `claimed`). -/
inductive LedgerOp where
  | reconcileBatch (numberOfClaimsSent : Nat)
  | reconcileSingle (numberOfClaimsSent : Nat)
  | attachClaim (c : JBClaim)
  | executeClaim
deriving DecidableEq, Repr

/-- The effect of one operation on one transaction record. -/
def applyLedgerOp : LedgerOp → StoredBridgeTransaction → StoredBridgeTransaction
  | .reconcileBatch n, tx => { tx with status := reconcileBatchStatus tx n }
  | .reconcileSingle n, tx => { tx with status := reconcileSingleStatus tx n }
  | .attachClaim c, tx =>
    if tx.status = .sent_to_remote ∧ tx.claimProof = none ∧ c.Leaf.Index = tx.index then
      { tx with claimProof := some c.Proof, claimLeaf := some c.Leaf,
                status := .ready_to_claim }
    else tx
  | .executeClaim, tx =>
    if tx.status ≠ .claimed then { tx with status := .claimed } else tx

/-- The sequence of statuses a transaction takes over a run of operations
(initial status included). -/
def statusTrace (tx : StoredBridgeTransaction) (ops : List LedgerOp) :
    List TransactionStatus :=
  (ops.scanl (fun t op => applyLedgerOp op t) tx).map StoredBridgeTransaction.status

lemma reconcileBatchStatus_cases (tx : StoredBridgeTransaction) (n : Nat) :
    reconcileBatchStatus tx n = tx.status ∨
    ((tx.status = .confirmed ∨ tx.status = .waiting_to_send ∨
        tx.status = .sent_to_remote) ∧
      reconcileBatchStatus tx n = .sent_to_remote) := by
  unfold reconcileBatchStatus
  by_cases hg : tx.status = TransactionStatus.confirmed ∨
      tx.status = TransactionStatus.waiting_to_send ∨
      tx.status = TransactionStatus.sent_to_remote
  · rw [if_pos hg]
    unfold checkTransactionBatchStep
    rcases hix : (if indexTruthy tx then jsParseIntNat tx.index else none) with _ | i
    · left; simp [hix]
    · by_cases hlt : i < n
      · right; exact ⟨hg, by simp [hix, hlt]⟩
      · left; simp [hix, hlt]
  · rw [if_neg hg]; left; rfl

lemma reconcileSingleStatus_cases (tx : StoredBridgeTransaction) (n : Nat) :
    reconcileSingleStatus tx n = tx.status ∨
    ((tx.status = .confirmed ∨ tx.status = .waiting_to_send) ∧
      reconcileSingleStatus tx n = .sent_to_remote) := by
  unfold reconcileSingleStatus
  by_cases hg : (tx.status = TransactionStatus.confirmed ∨
      tx.status = TransactionStatus.waiting_to_send) ∧ indexTruthy tx = true
  · rw [if_pos hg]
    rcases hix : jsParseIntNat tx.index with _ | i
    · left; rfl
    · by_cases hlt : i < n
      · right; exact ⟨hg.1, by simp [hlt]⟩
      · left; simp [hlt]
  · rw [if_neg hg]; left; rfl

lemma applyLedgerOp_progress_le (op : LedgerOp) (tx : StoredBridgeTransaction) :
    getStatusProgress tx.status ≤ getStatusProgress (applyLedgerOp op tx).status := by
  cases op with
  | reconcileBatch n =>
    show getStatusProgress tx.status ≤ getStatusProgress (reconcileBatchStatus tx n)
    rcases reconcileBatchStatus_cases tx n with h | ⟨hg, h⟩
    · rw [h]
    · rw [h]; rcases hg with hs | hs | hs <;> rw [hs] <;> decide
  | reconcileSingle n =>
    show getStatusProgress tx.status ≤ getStatusProgress (reconcileSingleStatus tx n)
    rcases reconcileSingleStatus_cases tx n with h | ⟨hg, h⟩
    · rw [h]
    · rw [h]; rcases hg with hs | hs <;> rw [hs] <;> decide
  | attachClaim c =>
    simp only [applyLedgerOp]
    by_cases hg : tx.status = TransactionStatus.sent_to_remote ∧
        tx.claimProof = none ∧ c.Leaf.Index = tx.index
    · rw [if_pos hg, hg.1]
      show getStatusProgress TransactionStatus.sent_to_remote ≤
        getStatusProgress TransactionStatus.ready_to_claim
      decide
    · rw [if_neg hg]
  | executeClaim =>
    simp only [applyLedgerOp]
    by_cases hg : tx.status ≠ TransactionStatus.claimed
    · rw [if_pos hg]
      show getStatusProgress tx.status ≤ getStatusProgress TransactionStatus.claimed
      cases tx.status <;> decide
    · rw [if_neg hg]

/-- C1 amended: over any run of the system's operations (reconciler status
updates, claim-data updates, claim execution), a transaction's status
sequence never moves backward in the code's own progression order
`pending, confirmed, waiting_to_send, sent_to_remote, ready_to_claim,
claimed` (the order of `getStatusProgress`). -/
theorem statusTrace_monotone (tx : StoredBridgeTransaction) (ops : List LedgerOp) :
    ((statusTrace tx ops).map getStatusProgress).Chain' (· ≤ ·) := by
  induction ops generalizing tx with
  | nil =>
    simp [statusTrace]
  | cons op rest ih =>
    have hscan : statusTrace tx (op :: rest) =
        tx.status :: statusTrace (applyLedgerOp op tx) rest := by
      simp [statusTrace, List.scanl]
    rw [hscan]
    obtain ⟨tail, htl⟩ : ∃ tail, statusTrace (applyLedgerOp op tx) rest =
        (applyLedgerOp op tx).status :: tail := by
      cases rest with
      | nil => exact ⟨[], by simp [statusTrace]⟩
      | cons op2 r2 =>
        refine ⟨(List.scanl (fun t op => applyLedgerOp op t)
          (applyLedgerOp op2 (applyLedgerOp op tx)) r2).map
            StoredBridgeTransaction.status, ?_⟩
        simp [statusTrace, List.scanl]
    have htail := ih (applyLedgerOp op tx)
    rw [htl] at htail
    rw [htl]
    simp only [List.map_cons, List.chain'_cons] at htail ⊢
    exact ⟨applyLedgerOp_progress_le op tx, htail⟩

/-- C1 counterexample: the batch reconciler moves a `confirmed` transaction
(status present in the code but absent from the claim's five-status list)
to `sent_to_remote`, so the observed status sequence is not a subsequence
of `initiated, waiting_to_send, sent_to_remote, ready_to_claim, claimed`. -/
theorem statusTrace_not_spec_subsequence :
    ((statusTrace { sampleTx with status := .confirmed, index := "0" }
        [LedgerOp.reconcileBatch 1]).map statusName =
      ["confirmed", "sent_to_remote"]) ∧
    ¬ ((statusTrace { sampleTx with status := .confirmed, index := "0" }
        [LedgerOp.reconcileBatch 1]).map statusName).Sublist
      ["initiated", "waiting_to_send", "sent_to_remote", "ready_to_claim",
       "claimed"] := by
  constructor
  · decide
  · intro hsub
    have hmem : "confirmed" ∈
        ((statusTrace { sampleTx with status := .confirmed, index := "0" }
          [LedgerOp.reconcileBatch 1]).map statusName) := by decide
    exact absurd (hsub.subset hmem) (by decide)

/-! ## Backend pass: materializing unknown claims (C7) -/

/-- Model of `createTransactionFromClaimData` from `bridgeStorageService.ts`:
a brand-new `ready_to_claim` record built from the claim alone, with the
unknown source-side fields set to sentinel/zero values. `freshId` models
`generateTransactionId()` and `now` models `Date.now()`. -/
def createTransactionFromClaimData (claimData : JBClaim) (chainId : Nat)
    (suckerAddress : String) (projectId : String) (freshId : String)
    (now : Nat) : StoredBridgeTransaction :=
  { id := freshId
    transactionHash := ""
    projectId := projectId
    sourceChainId := 0
    targetChainId := chainId
    suckerAddress := suckerAddress
    beneficiary := claimData.Leaf.Beneficiary
    token := claimData.Token
    projectTokenCount := claimData.Leaf.ProjectTokenCount
    terminalTokenAmount := claimData.Leaf.TerminalTokenAmount
    minTokensReclaimed := "0"
    hashed := ""
    index := claimData.Leaf.Index
    root := ""
    caller := "0x0000000000000000000000000000000000000000"
    claimProof := some claimData.Proof
    claimLeaf := some claimData.Leaf
    timestamp := now
    status := .ready_to_claim }

/-- The outcome of `checkBackendForClaimData` for one returned claim
record within one request group. -/
inductive BackendClaimEffect where
  | matched (transactionId : String)
  | created (tx : StoredBridgeTransaction)
  | skipped
deriving DecidableEq, Repr

/-- The handling of one returned claim in `checkBackendForClaimData`:
match against the group's transactions by leaf index (first match wins,
leading to `updateTransactionWithClaimData`); otherwise resolve the
token's project id (`getProjectIdForToken`, where `none` covers both a
`null` result and a thrown lookup) and create a new transaction, or skip
the claim when no project id can be resolved. -/
def handleBackendClaim (claim : JBClaim)
    (groupTxs : List StoredBridgeTransaction)
    (projectIdForToken : String → Option String)
    (chainId : Nat) (sucker : String) (freshId : String) (now : Nat) :
    BackendClaimEffect :=
  match groupTxs.find? (fun tx => claim.Leaf.Index = tx.index) with
  | some tx => .matched tx.id
  | none =>
    match projectIdForToken claim.Token with
    | some projectId =>
      .created (createTransactionFromClaimData claim chainId sucker projectId freshId now)
    | none => .skipped

/-- A concrete backend claim record used to instantiate theorems. -/
def sampleClaim : JBClaim :=
  { Token := "0xtoken"
    Leaf := { Index := "4", Beneficiary := "0xbenef",
              ProjectTokenCount := "10", TerminalTokenAmount := "10" }
    Proof := ["0xaa"] }

/-- C7 counterexample: an unmatched backend claim whose token's project id
cannot be resolved is skipped — no transaction is materialized, the claim
data is discarded. -/
theorem unmatchedClaim_skipped_without_projectId :
    handleBackendClaim sampleClaim [] (fun _ => none) 10 "0xsucker" "bridge-2-xyz"
      1700000000001 = .skipped ∧
    ∀ tx : StoredBridgeTransaction,
      handleBackendClaim sampleClaim [] (fun _ => none) 10 "0xsucker" "bridge-2-xyz"
        1700000000001 ≠ .created tx := by
  constructor
  · rfl
  · intro tx h
    exact BackendClaimEffect.noConfusion h

/-- C7 amended: for a returned claim matching no group transaction by leaf
index, whenever the token's project id resolves, a brand-new transaction is
materialized with status `ready_to_claim`, the claim's proof and leaf
attached, and the unknown source-side fields set to sentinel/zero values
(empty transaction hash, `sourceChainId` 0, zero caller address). -/
theorem unmatchedClaim_materialized (claim : JBClaim)
    (groupTxs : List StoredBridgeTransaction)
    (projectIdForToken : String → Option String)
    (chainId : Nat) (sucker freshId : String) (now : Nat) (pid : String)
    (hunmatched : ∀ tx ∈ groupTxs, claim.Leaf.Index ≠ tx.index)
    (hpid : projectIdForToken claim.Token = some pid) :
    handleBackendClaim claim groupTxs projectIdForToken chainId sucker freshId now =
      .created (createTransactionFromClaimData claim chainId sucker pid freshId now) ∧
    (createTransactionFromClaimData claim chainId sucker pid freshId now).status =
      .ready_to_claim ∧
    (createTransactionFromClaimData claim chainId sucker pid freshId now).claimProof =
      some claim.Proof ∧
    (createTransactionFromClaimData claim chainId sucker pid freshId now).claimLeaf =
      some claim.Leaf ∧
    (createTransactionFromClaimData claim chainId sucker pid freshId now).transactionHash =
      "" ∧
    (createTransactionFromClaimData claim chainId sucker pid freshId now).sourceChainId =
      0 ∧
    (createTransactionFromClaimData claim chainId sucker pid freshId now).caller =
      "0x0000000000000000000000000000000000000000" := by
  have hfind : groupTxs.find? (fun tx => claim.Leaf.Index = tx.index) = none := by
    rw [List.find?_eq_none]
    intro tx htx
    simpa using hunmatched tx htx
  refine ⟨?_, rfl, rfl, rfl, rfl, rfl, rfl⟩
  unfold handleBackendClaim
  rw [hfind, hpid]

/-- Witness for `unmatchedClaim_materialized` at a concrete claim, empty
group and a resolving project-id oracle. -/
theorem unmatchedClaim_materialized_witness :
    handleBackendClaim sampleClaim [] (fun _ => some "7") 10 "0xsucker"
      "bridge-2-xyz" 1700000000001 =
      .created (createTransactionFromClaimData sampleClaim 10 "0xsucker" "7"
        "bridge-2-xyz" 1700000000001) ∧
    (createTransactionFromClaimData sampleClaim 10 "0xsucker" "7" "bridge-2-xyz"
      1700000000001).status = .ready_to_claim ∧
    (createTransactionFromClaimData sampleClaim 10 "0xsucker" "7" "bridge-2-xyz"
      1700000000001).claimProof = some sampleClaim.Proof ∧
    (createTransactionFromClaimData sampleClaim 10 "0xsucker" "7" "bridge-2-xyz"
      1700000000001).claimLeaf = some sampleClaim.Leaf ∧
    (createTransactionFromClaimData sampleClaim 10 "0xsucker" "7" "bridge-2-xyz"
      1700000000001).transactionHash = "" ∧
    (createTransactionFromClaimData sampleClaim 10 "0xsucker" "7" "bridge-2-xyz"
      1700000000001).sourceChainId = 0 ∧
    (createTransactionFromClaimData sampleClaim 10 "0xsucker" "7" "bridge-2-xyz"
      1700000000001).caller = "0x0000000000000000000000000000000000000000" :=
  unmatchedClaim_materialized sampleClaim [] (fun _ => some "7") 10 "0xsucker"
    "bridge-2-xyz" 1700000000001 "7" (by intro tx h; cases h) rfl

/-! ## Ledger mutations and change notification (`bridgeStorageService.ts`).
Each operation returns the new stored list together with whether the
`bridge-transactions-updated` event was dispatched. `saveTransactions`
always dispatches; `clearAllTransactions` removes the storage key directly
and dispatches nothing. -/

/-- Mutate the first record matching `id` (JS `Array.prototype.find`
returns the first match, which is then mutated in place). -/
def updateFirstById (store : List StoredBridgeTransaction) (id : String)
    (f : StoredBridgeTransaction → StoredBridgeTransaction) :
    List StoredBridgeTransaction :=
  match store with
  | [] => []
  | tx :: rest => if tx.id = id then f tx :: rest else tx :: updateFirstById rest id f

/-- Model of `storeBridgeTransaction`: push and save. -/
def storeBridgeTransactionOp (store : List StoredBridgeTransaction)
    (tx : StoredBridgeTransaction) : List StoredBridgeTransaction × Bool :=
  (store ++ [tx], true)

/-- Model of `updateTransactionStatus`: mutate the found record and save; a missing
id saves (and dispatches) nothing. -/
def updateTransactionStatusOp (store : List StoredBridgeTransaction)
    (id : String) (status : TransactionStatus) :
    List StoredBridgeTransaction × Bool :=
  if store.any (fun tx => tx.id = id) then
    (updateFirstById store id (fun tx => { tx with status := status }), true)
  else (store, false)

/-- Model of `updateTransactionWithClaimData`: attach proof and leaf, set
`ready_to_claim` and save; a missing id only warns. -/
def updateTransactionWithClaimDataOp (store : List StoredBridgeTransaction)
    (id : String) (claimData : JBClaim) :
    List StoredBridgeTransaction × Bool :=
  if store.any (fun tx => tx.id = id) then
    (updateFirstById store id (fun tx =>
      { tx with claimProof := some claimData.Proof,
                claimLeaf := some claimData.Leaf,
                status := .ready_to_claim }), true)
  else (store, false)

/-- Model of `clearAllTransactions`: `localStorage.removeItem` — no save, no event. -/
def clearAllTransactionsOp (store : List StoredBridgeTransaction) :
    List StoredBridgeTransaction × Bool :=
  ([], false)

/-- One `forEach` body of `removeDuplicateTransactions`: keep the existing
record for this key unless the incoming one has a strictly greater
timestamp (`if (!existing || tx.timestamp > existing.timestamp) set(...)`). -/
def dedupStep (keyOf : StoredBridgeTransaction → String)
    (m : List (String × StoredBridgeTransaction))
    (tx : StoredBridgeTransaction) :
    List (String × StoredBridgeTransaction) :=
  match jsMapGet m (keyOf tx) with
  | none => jsMapSet m (keyOf tx) tx
  | some existing =>
    if existing.timestamp < tx.timestamp then jsMapSet m (keyOf tx) tx else m

/-- One pass of `removeDuplicateTransactions`: fold the records into a JS
`Map` keyed by `keyOf`. -/
def dedupPass (keyOf : StoredBridgeTransaction → String)
    (txs : List StoredBridgeTransaction) :
    List (String × StoredBridgeTransaction) :=
  txs.foldl (dedupStep keyOf) []

/-- The deduplicated list computed by `removeDuplicateTransactions`:
first by `id`, then by `transactionHash` over the id-pass survivors. -/
def dedupTransactions (txs : List StoredBridgeTransaction) :
    List StoredBridgeTransaction :=
  jsMapValues (dedupPass (fun tx => tx.transactionHash)
    (jsMapValues (dedupPass (fun tx => tx.id) txs)))

/-- Model of `removeDuplicateTransactions`: rewrite (and thereby dispatch) only when
the deduplicated list has fewer records than the stored one. -/
def removeDuplicateTransactionsOp (store : List StoredBridgeTransaction) :
    List StoredBridgeTransaction × Bool :=
  let deduplicatedTransactions := dedupTransactions store
  if deduplicatedTransactions.length ≠ store.length
  then (deduplicatedTransactions, true) else (store, false)

lemma jsMapGet_eq_some_of_mem {K V : Type} [DecidableEq K]
    {m : List (K × V)} (hnd : (m.map Prod.fst).Nodup) {k : K} {v : V}
    (h : (k, v) ∈ m) : jsMapGet m k = some v := by
  induction m with
  | nil => cases h
  | cons e rest ih =>
    rw [List.map_cons, List.nodup_cons] at hnd
    rcases List.mem_cons.mp h with h | h
    · rw [← h]
      simp [jsMapGet]
    · have hek : e.1 ≠ k := by
        intro hc
        exact hnd.1 (hc ▸ List.mem_map.mpr ⟨(k, v), h, rfl⟩)
      have hd : decide (e.1 = k) = false := decide_eq_false hek
      simp only [jsMapGet, List.find?_cons, hd]
      exact ih hnd.2 h

lemma dedupStep_eq_none {keyOf : StoredBridgeTransaction → String}
    {m : List (String × StoredBridgeTransaction)} {tx : StoredBridgeTransaction}
    (h : jsMapGet m (keyOf tx) = none) :
    dedupStep keyOf m tx = jsMapSet m (keyOf tx) tx := by
  unfold dedupStep
  rw [h]

lemma dedupStep_eq_some_lt {keyOf : StoredBridgeTransaction → String}
    {m : List (String × StoredBridgeTransaction)} {tx : StoredBridgeTransaction}
    {e : StoredBridgeTransaction} (h : jsMapGet m (keyOf tx) = some e)
    (hlt : e.timestamp < tx.timestamp) :
    dedupStep keyOf m tx = jsMapSet m (keyOf tx) tx := by
  unfold dedupStep
  rw [h]
  show (if e.timestamp < tx.timestamp then jsMapSet m (keyOf tx) tx else m) =
    jsMapSet m (keyOf tx) tx
  rw [if_pos hlt]

lemma dedupStep_eq_some_ge {keyOf : StoredBridgeTransaction → String}
    {m : List (String × StoredBridgeTransaction)} {tx : StoredBridgeTransaction}
    {e : StoredBridgeTransaction} (h : jsMapGet m (keyOf tx) = some e)
    (hlt : ¬ e.timestamp < tx.timestamp) :
    dedupStep keyOf m tx = m := by
  unfold dedupStep
  rw [h]
  show (if e.timestamp < tx.timestamp then jsMapSet m (keyOf tx) tx else m) = m
  rw [if_neg hlt]

lemma dedupStep_wf {keyOf : StoredBridgeTransaction → String}
    {m : List (String × StoredBridgeTransaction)} {tx : StoredBridgeTransaction}
    (h1 : ∀ p ∈ m, p.1 = keyOf p.2) :
    ∀ p ∈ dedupStep keyOf m tx, p.1 = keyOf p.2 := by
  intro p hp
  rcases hget : jsMapGet m (keyOf tx) with _ | e
  · rw [dedupStep_eq_none hget] at hp
    rcases mem_jsMapSet hp with h | h
    · rw [h]
    · exact h1 p h
  · by_cases hlt : e.timestamp < tx.timestamp
    · rw [dedupStep_eq_some_lt hget hlt] at hp
      rcases mem_jsMapSet hp with h | h
      · rw [h]
      · exact h1 p h
    · rw [dedupStep_eq_some_ge hget hlt] at hp
      exact h1 p hp

lemma dedupStep_keys_nodup {keyOf : StoredBridgeTransaction → String}
    {m : List (String × StoredBridgeTransaction)} {tx : StoredBridgeTransaction}
    (h2 : (m.map Prod.fst).Nodup) :
    ((dedupStep keyOf m tx).map Prod.fst).Nodup := by
  rcases hget : jsMapGet m (keyOf tx) with _ | e
  · have hk : keyOf tx ∉ m.map Prod.fst := (jsMapGet_eq_none_iff m _).mp hget
    rw [dedupStep_eq_none hget, jsMapSet_keys_of_not_mem _ hk]
    rw [List.nodup_append]
    exact ⟨h2, List.nodup_singleton _, by
      intro a ha hb
      rw [List.mem_singleton] at hb
      exact hk (hb ▸ ha)⟩
  · have hk : keyOf tx ∈ m.map Prod.fst :=
      List.mem_map.mpr ⟨(keyOf tx, e), jsMapGet_eq_some_mem hget, rfl⟩
    by_cases hlt : e.timestamp < tx.timestamp
    · rw [dedupStep_eq_some_lt hget hlt, jsMapSet_keys_of_mem _ hk]
      exact h2
    · rw [dedupStep_eq_some_ge hget hlt]
      exact h2

lemma dedupStep_mem {keyOf : StoredBridgeTransaction → String}
    {m : List (String × StoredBridgeTransaction)} {tx : StoredBridgeTransaction}
    {p : String × StoredBridgeTransaction} (hp : p ∈ dedupStep keyOf m tx) :
    p = (keyOf tx, tx) ∨ p ∈ m := by
  rcases hget : jsMapGet m (keyOf tx) with _ | e
  · rw [dedupStep_eq_none hget] at hp
    exact mem_jsMapSet hp
  · by_cases hlt : e.timestamp < tx.timestamp
    · rw [dedupStep_eq_some_lt hget hlt] at hp
      exact mem_jsMapSet hp
    · rw [dedupStep_eq_some_ge hget hlt] at hp
      exact Or.inr hp

lemma dedupStep_exists_self (keyOf : StoredBridgeTransaction → String)
    (m : List (String × StoredBridgeTransaction)) (tx : StoredBridgeTransaction) :
    ∃ p ∈ dedupStep keyOf m tx, p.1 = keyOf tx ∧ tx.timestamp ≤ p.2.timestamp := by
  rcases hget : jsMapGet m (keyOf tx) with _ | e
  · rw [dedupStep_eq_none hget]
    exact ⟨(keyOf tx, tx), jsMapSet_self_mem m _ tx, rfl, le_rfl⟩
  · by_cases hlt : e.timestamp < tx.timestamp
    · rw [dedupStep_eq_some_lt hget hlt]
      exact ⟨(keyOf tx, tx), jsMapSet_self_mem m _ tx, rfl, le_rfl⟩
    · rw [dedupStep_eq_some_ge hget hlt]
      exact ⟨(keyOf tx, e), jsMapGet_eq_some_mem hget, rfl, not_lt.mp hlt⟩

lemma dedupStep_preserve {keyOf : StoredBridgeTransaction → String}
    {m : List (String × StoredBridgeTransaction)} {tx : StoredBridgeTransaction}
    (h2 : (m.map Prod.fst).Nodup) :
    ∀ p ∈ m, ∃ q ∈ dedupStep keyOf m tx,
      q.1 = p.1 ∧ p.2.timestamp ≤ q.2.timestamp := by
  intro p hp
  by_cases hk : p.1 = keyOf tx
  · have hget : jsMapGet m (keyOf tx) = some p.2 := by
      rw [← hk]
      exact jsMapGet_eq_some_of_mem h2 (by rwa [Prod.mk.eta])
    by_cases hlt : p.2.timestamp < tx.timestamp
    · rw [dedupStep_eq_some_lt hget hlt]
      exact ⟨(keyOf tx, tx), jsMapSet_self_mem m _ tx, hk.symm, le_of_lt hlt⟩
    · rw [dedupStep_eq_some_ge hget hlt]
      exact ⟨p, hp, rfl, le_rfl⟩
  · rcases hget : jsMapGet m (keyOf tx) with _ | e
    · rw [dedupStep_eq_none hget]
      exact ⟨p, mem_jsMapSet_of_ne _ tx hp hk, rfl, le_rfl⟩
    · by_cases hlt : e.timestamp < tx.timestamp
      · rw [dedupStep_eq_some_lt hget hlt]
        exact ⟨p, mem_jsMapSet_of_ne _ tx hp hk, rfl, le_rfl⟩
      · rw [dedupStep_eq_some_ge hget hlt]
        exact ⟨p, hp, rfl, le_rfl⟩

/-- The combined invariant of one dedup pass, proved over the fold from an
arbitrary well-formed map. -/
lemma dedupFold_inv (keyOf : StoredBridgeTransaction → String)
    (txs : List StoredBridgeTransaction) :
    ∀ (m : List (String × StoredBridgeTransaction)),
    (∀ p ∈ m, p.1 = keyOf p.2) → ((m.map Prod.fst).Nodup) →
    (∀ p ∈ txs.foldl (dedupStep keyOf) m, p.1 = keyOf p.2) ∧
    ((txs.foldl (dedupStep keyOf) m).map Prod.fst).Nodup ∧
    (∀ p ∈ txs.foldl (dedupStep keyOf) m, p.2 ∈ txs ∨ p ∈ m) ∧
    (∀ x ∈ txs, ∃ p ∈ txs.foldl (dedupStep keyOf) m,
      p.1 = keyOf x ∧ x.timestamp ≤ p.2.timestamp) ∧
    (∀ p ∈ m, ∃ q ∈ txs.foldl (dedupStep keyOf) m,
      q.1 = p.1 ∧ p.2.timestamp ≤ q.2.timestamp) := by
  induction txs with
  | nil =>
    intro m h1 h2
    exact ⟨h1, h2, fun p hp => Or.inr hp, by simp,
      fun p hp => ⟨p, hp, rfl, le_rfl⟩⟩
  | cons tx rest ih =>
    intro m h1 h2
    obtain ⟨C1, C2, C3, C4, C5⟩ :=
      ih (dedupStep keyOf m tx) (dedupStep_wf h1) (dedupStep_keys_nodup h2)
    rw [List.foldl_cons]
    refine ⟨C1, C2, ?_, ?_, ?_⟩
    · intro p hp
      rcases C3 p hp with h | h
      · exact Or.inl (List.mem_cons_of_mem _ h)
      · rcases dedupStep_mem h with h | h
        · exact Or.inl (by rw [h]; exact List.mem_cons_self _ _)
        · exact Or.inr h
    · intro x hx
      rcases List.mem_cons.mp hx with hx | hx
      · subst hx
        obtain ⟨p, hp, hpk, hpt⟩ := dedupStep_exists_self keyOf m x
        obtain ⟨q, hq, hqk, hqt⟩ := C5 p hp
        exact ⟨q, hq, by rw [hqk, hpk], le_trans hpt hqt⟩
      · exact C4 x hx
    · intro p hp
      obtain ⟨q, hq, hqk, hqt⟩ := dedupStep_preserve h2 p hp
      obtain ⟨r, hr, hrk, hrt⟩ := C5 q hq
      exact ⟨r, hr, by rw [hrk, hqk], le_trans hqt hrt⟩

lemma dedupStep_length_le (keyOf : StoredBridgeTransaction → String)
    (m : List (String × StoredBridgeTransaction)) (tx : StoredBridgeTransaction) :
    (dedupStep keyOf m tx).length ≤ m.length + 1 := by
  rcases hget : jsMapGet m (keyOf tx) with _ | e
  · rw [dedupStep_eq_none hget]
    exact jsMapSet_length_le m _ tx
  · by_cases hlt : e.timestamp < tx.timestamp
    · rw [dedupStep_eq_some_lt hget hlt]
      exact jsMapSet_length_le m _ tx
    · rw [dedupStep_eq_some_ge hget hlt]
      omega

lemma dedupFold_length_le (keyOf : StoredBridgeTransaction → String)
    (txs : List StoredBridgeTransaction) :
    ∀ m, (txs.foldl (dedupStep keyOf) m).length ≤ m.length + txs.length := by
  induction txs with
  | nil => intro m; simp
  | cons tx rest ih =>
    intro m
    rw [List.foldl_cons]
    calc (rest.foldl (dedupStep keyOf) (dedupStep keyOf m tx)).length
        ≤ (dedupStep keyOf m tx).length + rest.length := ih _
      _ ≤ m.length + 1 + rest.length := by
          have := dedupStep_length_le keyOf m tx; omega
      _ = m.length + (tx :: rest).length := by simp; omega

/-- The distinct-keys condition under which a dedup pass appends every
record unchanged. -/
def KeysOk (keyOf : StoredBridgeTransaction → String)
    (m : List (String × StoredBridgeTransaction))
    (txs : List StoredBridgeTransaction) : Prop :=
  (txs.map keyOf).Nodup ∧ ∀ tx ∈ txs, keyOf tx ∉ m.map Prod.fst

lemma dedupFold_length_lt (keyOf : StoredBridgeTransaction → String)
    (txs : List StoredBridgeTransaction) :
    ∀ m, ¬ KeysOk keyOf m txs →
      (txs.foldl (dedupStep keyOf) m).length < m.length + txs.length := by
  induction txs with
  | nil =>
    intro m hnot
    exact absurd ⟨List.nodup_nil, by simp⟩ hnot
  | cons tx rest ih =>
    intro m hnot
    rw [List.foldl_cons]
    rcases hget : jsMapGet m (keyOf tx) with _ | e
    · -- fresh key: the failure condition passes down to the extended map
      have hk : keyOf tx ∉ m.map Prod.fst := (jsMapGet_eq_none_iff m _).mp hget
      have hstep := dedupStep_eq_none hget
      have hkeys : (dedupStep keyOf m tx).map Prod.fst = m.map Prod.fst ++ [keyOf tx] := by
        rw [hstep]
        exact jsMapSet_keys_of_not_mem _ hk
      have hlen : (dedupStep keyOf m tx).length = m.length + 1 := by
        have := congrArg List.length hkeys
        simpa using this
      have hnot' : ¬ KeysOk keyOf (dedupStep keyOf m tx) rest := by
        intro hok
        apply hnot
        constructor
        · rw [List.map_cons, List.nodup_cons]
          refine ⟨?_, hok.1⟩
          intro hmem
          obtain ⟨t, ht, hteq⟩ := List.mem_map.mp hmem
          have := hok.2 t ht
          rw [hkeys] at this
          exact this (by simp [hteq])
        · intro t ht
          rcases List.mem_cons.mp ht with h | h
          · rw [h]; exact hk
          · have := hok.2 t h
            rw [hkeys] at this
            intro hc
            exact this (List.mem_append_left _ hc)
      have := ih (dedupStep keyOf m tx) hnot'
      rw [hlen] at this
      simpa [Nat.add_assoc, Nat.add_comm, Nat.add_left_comm] using this
    · -- key already present: the step does not grow the map
      have hstep_len : (dedupStep keyOf m tx).length = m.length := by
        have hk : keyOf tx ∈ m.map Prod.fst :=
          List.mem_map.mpr ⟨(keyOf tx, e), jsMapGet_eq_some_mem hget, rfl⟩
        by_cases hlt : e.timestamp < tx.timestamp
        · rw [dedupStep_eq_some_lt hget hlt]
          exact jsMapSet_length_of_mem _ hk
        · rw [dedupStep_eq_some_ge hget hlt]
      have := dedupFold_length_le keyOf rest (dedupStep keyOf m tx)
      rw [hstep_len] at this
      simp only [List.length_cons]
      omega

lemma dedupFold_eq_of_keysOk (keyOf : StoredBridgeTransaction → String)
    (txs : List StoredBridgeTransaction) :
    ∀ m, KeysOk keyOf m txs →
      txs.foldl (dedupStep keyOf) m = m ++ txs.map (fun tx => (keyOf tx, tx)) := by
  induction txs with
  | nil => intro m _; simp
  | cons tx rest ih =>
    intro m hok
    have hk : keyOf tx ∉ m.map Prod.fst := hok.2 tx (List.mem_cons_self _ _)
    have hget : jsMapGet m (keyOf tx) = none := (jsMapGet_eq_none_iff m _).mpr hk
    rw [List.foldl_cons, dedupStep_eq_none hget, jsMapSet_eq_append_of_not_mem _ hk]
    have hok' : KeysOk keyOf (m ++ [(keyOf tx, tx)]) rest := by
      have hnd := hok.1
      rw [List.map_cons, List.nodup_cons] at hnd
      refine ⟨hnd.2, ?_⟩
      intro t ht
      rw [List.map_append]
      intro hc
      rcases List.mem_append.mp hc with h | h
      · exact hok.2 t (List.mem_cons_of_mem _ ht) h
      · simp only [List.map_cons, List.map_nil, List.mem_singleton] at h
        exact hnd.1 (h ▸ List.mem_map.mpr ⟨t, ht, rfl⟩)
    rw [ih _ hok', List.map_cons, List.append_assoc]
    rfl

lemma jsMapValues_map_of_pairs (keyOf : StoredBridgeTransaction → String)
    (txs : List StoredBridgeTransaction) :
    jsMapValues (txs.map (fun tx => (keyOf tx, tx))) = txs := by
  unfold jsMapValues
  rw [List.map_map]
  exact List.map_id txs

/-- When the deduplicated list keeps the stored list's length, the stored
list already had pairwise-distinct ids and hashes and the routine computed
it back unchanged. -/
lemma dedupTransactions_length_eq {store : List StoredBridgeTransaction}
    (h : (dedupTransactions store).length = store.length) :
    (store.map (fun tx => tx.id)).Nodup ∧
    (store.map (fun tx => tx.transactionHash)).Nodup ∧
    dedupTransactions store = store ∧
    jsMapValues (dedupPass (fun tx => tx.id) store) = store := by
  have hinner_le : (dedupPass (fun tx => tx.id) store).length ≤ store.length := by
    have := dedupFold_length_le (fun tx => tx.id) store []
    simpa [dedupPass] using this
  have houter_le : (dedupPass (fun tx => tx.transactionHash)
      (jsMapValues (dedupPass (fun tx => tx.id) store))).length ≤
      (dedupPass (fun tx => tx.id) store).length := by
    have := dedupFold_length_le (fun tx => tx.transactionHash)
      (jsMapValues (dedupPass (fun tx => tx.id) store)) []
    simpa [dedupPass, jsMapValues] using this
  have hlen_outer : (dedupTransactions store).length =
      (dedupPass (fun tx => tx.transactionHash)
        (jsMapValues (dedupPass (fun tx => tx.id) store))).length := by
    simp [dedupTransactions, jsMapValues]
  have hinner_eq : (dedupPass (fun tx => tx.id) store).length = store.length := by
    omega
  have hids : KeysOk (fun tx => tx.id) [] store := by
    by_contra hnot
    have := dedupFold_length_lt (fun tx => tx.id) store [] hnot
    simp only [dedupPass] at hinner_eq
    simp at this
    omega
  have hinner_val : jsMapValues (dedupPass (fun tx => tx.id) store) = store := by
    rw [dedupPass, dedupFold_eq_of_keysOk _ _ [] hids, List.nil_append]
    exact jsMapValues_map_of_pairs _ store
  have houter_eq : (dedupPass (fun tx => tx.transactionHash)
      (jsMapValues (dedupPass (fun tx => tx.id) store))).length = store.length := by
    omega
  rw [hinner_val] at houter_eq
  have hhashes : KeysOk (fun tx => tx.transactionHash) [] store := by
    by_contra hnot
    have := dedupFold_length_lt (fun tx => tx.transactionHash) store [] hnot
    simp only [dedupPass] at houter_eq
    simp at this
    omega
  refine ⟨hids.1, hhashes.1, ?_, hinner_val⟩
  rw [dedupTransactions, hinner_val, dedupPass,
    dedupFold_eq_of_keysOk _ _ [] hhashes, List.nil_append]
  exact jsMapValues_map_of_pairs _ store

lemma dedupPass_inv (keyOf : StoredBridgeTransaction → String)
    (txs : List StoredBridgeTransaction) :
    (∀ p ∈ dedupPass keyOf txs, p.1 = keyOf p.2) ∧
    ((dedupPass keyOf txs).map Prod.fst).Nodup ∧
    (∀ p ∈ dedupPass keyOf txs, p.2 ∈ txs) ∧
    (∀ x ∈ txs, ∃ p ∈ dedupPass keyOf txs,
      p.1 = keyOf x ∧ x.timestamp ≤ p.2.timestamp) := by
  obtain ⟨C1, C2, C3, C4, _⟩ :=
    dedupFold_inv keyOf txs [] (by intro p hp; cases hp) (by simp)
  refine ⟨C1, C2, ?_, C4⟩
  intro p hp
  rcases C3 p hp with h | h
  · exact h
  · cases h

/-- C8 counterexample: with records A(id `a`, hash `h`, t 1),
B(id `b`, hash `h`, t 5), C(id `b`, hash `g`, t 10), the id-pass drops B in
favor of C, so among the hash-`h` pair {A, B} the one with the smaller
timestamp (A) survives the routine while B does not. -/
theorem dedup_not_greatest_timestamp :
    ({ sampleTx with id := "a", transactionHash := "h", timestamp := 1 } :
        StoredBridgeTransaction).transactionHash =
      ({ sampleTx with id := "b", transactionHash := "h", timestamp := 5 } :
        StoredBridgeTransaction).transactionHash ∧
    ({ sampleTx with id := "a", transactionHash := "h", timestamp := 1 } :
        StoredBridgeTransaction).id ≠
      ({ sampleTx with id := "b", transactionHash := "h", timestamp := 5 } :
        StoredBridgeTransaction).id ∧
    ({ sampleTx with id := "a", transactionHash := "h", timestamp := 1 } :
        StoredBridgeTransaction).timestamp <
      ({ sampleTx with id := "b", transactionHash := "h", timestamp := 5 } :
        StoredBridgeTransaction).timestamp ∧
    ({ sampleTx with id := "a", transactionHash := "h", timestamp := 1 } :
        StoredBridgeTransaction) ∈
      (removeDuplicateTransactionsOp
        [{ sampleTx with id := "a", transactionHash := "h", timestamp := 1 },
         { sampleTx with id := "b", transactionHash := "h", timestamp := 5 },
         { sampleTx with id := "b", transactionHash := "g", timestamp := 10 }]).1 ∧
    ({ sampleTx with id := "b", transactionHash := "h", timestamp := 5 } :
        StoredBridgeTransaction) ∉
      (removeDuplicateTransactionsOp
        [{ sampleTx with id := "a", transactionHash := "h", timestamp := 1 },
         { sampleTx with id := "b", transactionHash := "h", timestamp := 5 },
         { sampleTx with id := "b", transactionHash := "g", timestamp := 10 }]).1 := by
  decide

/-- C8 amended: after `removeDuplicateTransactions` runs, the stored list
contains at most one record per `id` and at most one per `transactionHash`;
and every record surviving the id-dedup pass is represented in the stored
list by a record with its `transactionHash` and at least its timestamp (the
claim's stronger per-pair greatest-timestamp rule fails when an id-level
duplicate shadows a hash-level one: see the counterexample). -/
theorem removeDuplicates_result (store : List StoredBridgeTransaction) :
    ((removeDuplicateTransactionsOp store).1.map (fun tx => tx.id)).Nodup ∧
    ((removeDuplicateTransactionsOp store).1.map (fun tx => tx.transactionHash)).Nodup ∧
    (∀ x ∈ jsMapValues (dedupPass (fun tx => tx.id) store),
      ∃ v ∈ (removeDuplicateTransactionsOp store).1,
        v.transactionHash = x.transactionHash ∧ x.timestamp ≤ v.timestamp) := by
  by_cases hch : (dedupTransactions store).length ≠ store.length
  · -- rewrite case: the result is the deduplicated list
    have hres : (removeDuplicateTransactionsOp store).1 = dedupTransactions store := by
      simp [removeDuplicateTransactionsOp, hch]
    obtain ⟨I1, I2, I3, _⟩ := dedupPass_inv (fun tx => tx.id) store
    obtain ⟨O1, O2, O3, O4⟩ := dedupPass_inv (fun tx => tx.transactionHash)
      (jsMapValues (dedupPass (fun tx => tx.id) store))
    have hvals_ids : ((jsMapValues (dedupPass (fun tx => tx.id) store)).map
        (fun tx => tx.id)).Nodup := by
      have hmapeq : (jsMapValues (dedupPass (fun tx => tx.id) store)).map
          (fun tx => tx.id) = (dedupPass (fun tx => tx.id) store).map Prod.fst := by
        unfold jsMapValues
        rw [List.map_map]
        refine List.map_congr_left ?_
        intro p hp
        exact (I1 p hp).symm
      rw [hmapeq]
      exact I2
    have hinj := List.inj_on_of_nodup_map hvals_ids
    have houter_nodup : (dedupPass (fun tx => tx.transactionHash)
        (jsMapValues (dedupPass (fun tx => tx.id) store))).Nodup :=
      List.Nodup.of_map Prod.fst O2
    rw [hres]
    refine ⟨?_, ?_, ?_⟩
    · -- ids in the final list are pairwise distinct
      have hmapeq : (dedupTransactions store).map (fun tx => tx.id) =
          (dedupPass (fun tx => tx.transactionHash)
            (jsMapValues (dedupPass (fun tx => tx.id) store))).map
            (fun p => p.2.id) := by
        unfold dedupTransactions jsMapValues
        rw [List.map_map]
        rfl
      rw [hmapeq]
      refine List.Nodup.map_on ?_ houter_nodup
      intro p hp q hq hid
      have hpv := O3 p hp
      have hqv := O3 q hq
      have hsnd : p.2 = q.2 := hinj hpv hqv hid
      have hfst : p.1 = q.1 := by
        rw [O1 p hp, O1 q hq, hsnd]
      cases p; cases q
      simp only at hsnd hfst
      rw [hsnd, hfst]
    · -- hashes in the final list are pairwise distinct
      have hmapeq : (dedupTransactions store).map (fun tx => tx.transactionHash) =
          (dedupPass (fun tx => tx.transactionHash)
            (jsMapValues (dedupPass (fun tx => tx.id) store))).map Prod.fst := by
        unfold dedupTransactions jsMapValues
        rw [List.map_map]
        refine List.map_congr_left ?_
        intro p hp
        exact (O1 p hp).symm
      rw [hmapeq]
      exact O2
    · intro x hx
      obtain ⟨p, hp, hpk, hpt⟩ := O4 x hx
      refine ⟨p.2, List.mem_map.mpr ⟨p, hp, rfl⟩, ?_, hpt⟩
      rw [← O1 p hp, hpk]
  · -- no-rewrite case: the stored list already satisfied the invariants
    have heq : (dedupTransactions store).length = store.length := by
      by_contra hc
      exact hch hc
    obtain ⟨hids, hhashes, _, hvals⟩ := dedupTransactions_length_eq heq
    have hres : (removeDuplicateTransactionsOp store).1 = store := by
      simp [removeDuplicateTransactionsOp, hch]
    rw [hres, hvals]
    exact ⟨hids, hhashes, fun x hx => ⟨x, hx, rfl, le_rfl⟩⟩

/-- Witness for `removeDuplicates_result` on a concrete three-record
ledger with both an id-level and a hash-level duplicate. -/
theorem removeDuplicates_result_witness :
    ((removeDuplicateTransactionsOp
        [{ sampleTx with id := "a", transactionHash := "h", timestamp := 1 },
         { sampleTx with id := "b", transactionHash := "h", timestamp := 5 },
         { sampleTx with id := "b", transactionHash := "g", timestamp := 10 }]).1.map
      (fun tx => tx.id)).Nodup ∧
    ∃ v ∈ (removeDuplicateTransactionsOp
        [{ sampleTx with id := "a", transactionHash := "h", timestamp := 1 },
         { sampleTx with id := "b", transactionHash := "h", timestamp := 5 },
         { sampleTx with id := "b", transactionHash := "g", timestamp := 10 }]).1,
      v.transactionHash =
        ({ sampleTx with id := "b", transactionHash := "g", timestamp := 10 } :
          StoredBridgeTransaction).transactionHash ∧
      ({ sampleTx with id := "b", transactionHash := "g", timestamp := 10 } :
        StoredBridgeTransaction).timestamp ≤ v.timestamp := by
  have h := removeDuplicates_result
    [{ sampleTx with id := "a", transactionHash := "h", timestamp := 1 },
     { sampleTx with id := "b", transactionHash := "h", timestamp := 5 },
     { sampleTx with id := "b", transactionHash := "g", timestamp := 10 }]
  exact ⟨h.1, h.2.2 _ (by decide)⟩

/-- C9 counterexample: `clearAllTransactions` changes the stored data (a
nonempty ledger becomes empty) yet dispatches no change notification. -/
theorem clearAllTransactions_no_event :
    (clearAllTransactionsOp [sampleTx]).1 ≠ [sampleTx] ∧
    (clearAllTransactionsOp [sampleTx]).2 = false := by
  refine ⟨?_, rfl⟩
  intro h
  exact List.noConfusion h

/-- C9 amended: every ledger mutation that persists through
`saveTransactions` — storing a transaction, updating a status, attaching
claim data, and the dedup rewrite — dispatches the change notification
whenever it changes the stored data (`clearAllTransactions` does not: see
the counterexample). -/
theorem saveTransactions_mutations_emit (store : List StoredBridgeTransaction)
    (tx : StoredBridgeTransaction) (id : String) (status : TransactionStatus)
    (claimData : JBClaim) :
    ((storeBridgeTransactionOp store tx).1 ≠ store →
      (storeBridgeTransactionOp store tx).2 = true) ∧
    ((updateTransactionStatusOp store id status).1 ≠ store →
      (updateTransactionStatusOp store id status).2 = true) ∧
    ((updateTransactionWithClaimDataOp store id claimData).1 ≠ store →
      (updateTransactionWithClaimDataOp store id claimData).2 = true) ∧
    ((removeDuplicateTransactionsOp store).1 ≠ store →
      (removeDuplicateTransactionsOp store).2 = true) := by
  refine ⟨fun _ => rfl, ?_, ?_, ?_⟩
  · by_cases h : store.any (fun tx => tx.id = id)
    · intro _; simp [updateTransactionStatusOp, h]
    · intro hne; exact absurd (by simp [updateTransactionStatusOp, h]) hne
  · by_cases h : store.any (fun tx => tx.id = id)
    · intro _; simp [updateTransactionWithClaimDataOp, h]
    · intro hne; exact absurd (by simp [updateTransactionWithClaimDataOp, h]) hne
  · by_cases h : (dedupTransactions store).length ≠ store.length
    · intro _; simp [removeDuplicateTransactionsOp, h]
    · intro hne; exact absurd (by simp [removeDuplicateTransactionsOp, h]) hne

/-- Witness for `saveTransactions_mutations_emit`: concrete mutations that
change the stored data all dispatch the event. -/
theorem saveTransactions_mutations_emit_witness :
    (storeBridgeTransactionOp [] sampleTx).2 = true ∧
    (updateTransactionStatusOp [sampleTx] "bridge-1-abc" .claimed).2 = true ∧
    (updateTransactionWithClaimDataOp [sampleTx] "bridge-1-abc" sampleClaim).2 = true ∧
    (removeDuplicateTransactionsOp [sampleTx, sampleTx]).2 = true :=
  ⟨(saveTransactions_mutations_emit [] sampleTx "x" .claimed sampleClaim).1
      (by intro h; exact List.noConfusion h),
   (saveTransactions_mutations_emit [sampleTx] sampleTx "bridge-1-abc" .claimed
      sampleClaim).2.1 (by decide),
   (saveTransactions_mutations_emit [sampleTx] sampleTx "bridge-1-abc" .claimed
      sampleClaim).2.2.1 (by decide),
   (saveTransactions_mutations_emit [sampleTx, sampleTx] sampleTx "bridge-1-abc"
      .claimed sampleClaim).2.2.2 (by decide)⟩

/-! ## Pair discovery (`suckerDiscoveryService.ts`).
The chain reads are modelled as finite association-list oracles:
`registry` maps `(chainId, projectId)` to the result of
`registry.suckerPairsOf(projectId)` on that chain (a missing entry models
a thrown lookup), and `projectOf` maps `(chainId, suckerAddress)` to the
result of `sucker.projectId()` (missing entry = thrown, branch abandoned).
The JS worklist array with `push`/`pop` at the end is modelled by a list
holding the array reversed, so `push` is `cons` and `pop` takes the head. -/

/-- Model of `JBSuckersPair` (a raw registry pair; the TS field `local` is a Lean
keyword, hence the trailing underscore). -/
structure JBSuckersPair where
  local_ : String
  remote : String
  remoteChainId : Nat
deriving DecidableEq, Repr

/-- One side of a discovered `SuckerPair`. -/
structure SuckerEndpoint where
  chainId : Nat
  address : String
  projectId : String
  bridgeInfo : Option SuckerBridgeInfo := none
deriving DecidableEq, Repr

/-- A discovered `SuckerPair`. -/
structure SuckerPair where
  id : String
  chainA : SuckerEndpoint
  chainB : SuckerEndpoint
deriving DecidableEq, Repr

/-- Model of `ProjectSuckerMapping`: the raw pairs snapshot for one chain/project. -/
structure ProjectSuckerMapping where
  projectId : String
  chainId : Nat
  suckerPairs : List JBSuckersPair
deriving DecidableEq, Repr

/-- The visited-set key `` `${chainId}-${projectId}` ``. -/
def mkKey (chainId : Nat) (projectId : String) : String :=
  toString chainId ++ "-" ++ projectId

/-- The mutable state of the `discoverAllSuckers` while loop. `processLog`
instruments the traversal: it records the key of every
`getSuckerPairsForProject` fetch, in order, for the at-most-once claim. -/
structure DiscoveryState where
  projectMappings : List (String × ProjectSuckerMapping)
  suckerPairs : List (String × SuckerPair)
  checkedCombinations : Finset String
  processedPairs : Finset String
  toCheck : List (Nat × String)
  processLog : List String

/-- The body of the inner `for (const rawPair of rawSuckerPairs)` loop,
acting on the accumulator `(suckerPairs, processedPairs, toCheck)`. -/
def processRawPair (projectOf : List ((Nat × String) × String))
    (chainId : Nat) (projectId : String) (checked : Finset String)
    (acc : List (String × SuckerPair) × Finset String × List (Nat × String))
    (rawPair : JBSuckersPair) :
    List (String × SuckerPair) × Finset String × List (Nat × String) :=
  let pairId := createSuckerPairId chainId rawPair.local_
    rawPair.remoteChainId rawPair.remote
  if pairId ∈ acc.2.1 then acc
  else
    match jsMapGet projectOf (rawPair.remoteChainId, rawPair.remote) with
    | none => acc
    | some remoteProjectId =>
      let suckerPair : SuckerPair :=
        { id := pairId
          chainA := { chainId := chainId, address := rawPair.local_,
                      projectId := projectId }
          chainB := { chainId := rawPair.remoteChainId, address := rawPair.remote,
                      projectId := remoteProjectId } }
      ( jsMapSet acc.1 pairId suckerPair,
        insert pairId acc.2.1,
        if mkKey rawPair.remoteChainId remoteProjectId ∈ checked then acc.2.2
        else (rawPair.remoteChainId, remoteProjectId) :: acc.2.2 )

/-- One iteration of the `while (toCheck.length > 0)` loop. -/
def discoverStep (registry : List ((Nat × String) × List JBSuckersPair))
    (projectOf : List ((Nat × String) × String))
    (st : DiscoveryState) : DiscoveryState :=
  match st.toCheck with
  | [] => st
  | (chainId, projectId) :: rest =>
    let key := mkKey chainId projectId
    if key ∈ st.checkedCombinations then { st with toCheck := rest }
    else
      let checked' := insert key st.checkedCombinations
      match jsMapGet registry (chainId, projectId) with
      | none =>
        { st with checkedCombinations := checked', toCheck := rest,
                  processLog := st.processLog ++ [key] }
      | some rawSuckerPairs =>
        let acc := rawSuckerPairs.foldl
          (processRawPair projectOf chainId projectId checked')
          (st.suckerPairs, st.processedPairs, rest)
        { projectMappings := jsMapSet st.projectMappings key
            { projectId := projectId, chainId := chainId,
              suckerPairs := rawSuckerPairs }
          suckerPairs := acc.1
          checkedCombinations := checked'
          processedPairs := acc.2.1
          toCheck := acc.2.2
          processLog := st.processLog ++ [key] }

/-- The while loop with explicit fuel (`none` = fuel exhausted before the
worklist emptied). -/
def discoverLoop (registry : List ((Nat × String) × List JBSuckersPair))
    (projectOf : List ((Nat × String) × String)) :
    Nat → DiscoveryState → Option DiscoveryState
  | 0, st => if st.toCheck = [] then some st else none
  | fuel + 1, st =>
    match st.toCheck with
    | [] => some st
    | _ :: _ => discoverLoop registry projectOf fuel (discoverStep registry projectOf st)

/-- One endpoint's detection result, with the catch-block fallback of
`populateBridgeInfo`. -/
def detectOrFallback (detect : Nat → String → Option SuckerBridgeInfo)
    (chainId : Nat) (address : String) : SuckerBridgeInfo :=
  match detect chainId address with
  | some info => info
  | none => unknownFallback chainId address

/-- Model of `populateBridgeInfo`: attach a bridge classification (or the unknown
fallback when detection throws) to both endpoints of every discovered
pair. -/
def populateBridgeInfo (detect : Nat → String → Option SuckerBridgeInfo)
    (pairs : List (String × SuckerPair)) : List (String × SuckerPair) :=
  pairs.map (fun e =>
    (e.1,
     { e.2 with
       chainA := { e.2.chainA with
         bridgeInfo := some (detectOrFallback detect e.2.chainA.chainId e.2.chainA.address) }
       chainB := { e.2.chainB with
         bridgeInfo := some (detectOrFallback detect e.2.chainB.chainId e.2.chainB.address) } }))

/-- Model of `SuckerDiscoveryResult`. -/
structure SuckerDiscoveryResult where
  projectMappings : List (String × ProjectSuckerMapping)
  suckerPairs : List (String × SuckerPair)

/-- Model of `discoverAllSuckers`, returning the result together with the traversal
process log. -/
def discoverAllSuckers (registry : List ((Nat × String) × List JBSuckersPair))
    (projectOf : List ((Nat × String) × String))
    (detect : Nat → String → Option SuckerBridgeInfo)
    (initialChainId : Nat) (initialProjectId : String) (fuel : Nat) :
    Option (SuckerDiscoveryResult × List String) :=
  match discoverLoop registry projectOf fuel
    { projectMappings := []
      suckerPairs := []
      checkedCombinations := ∅
      processedPairs := ∅
      toCheck := [(initialChainId, initialProjectId)]
      processLog := [] } with
  | some st => some
    ({ projectMappings := st.projectMappings
       suckerPairs := populateBridgeInfo detect st.suckerPairs }, st.processLog)
  | none => none

/-- All keys the traversal can ever push: a key derived from some registry
entry's raw pair whose remote project id resolves. -/
def pushableKeys (registry : List ((Nat × String) × List JBSuckersPair))
    (projectOf : List ((Nat × String) × String)) : List String :=
  registry.flatMap (fun e => e.2.filterMap (fun rp =>
    (jsMapGet projectOf (rp.remoteChainId, rp.remote)).map
      (fun pid => mkKey rp.remoteChainId pid)))

/-- The finite universe of keys reachable from the initial key. -/
def keyUniverse (registry : List ((Nat × String) × List JBSuckersPair))
    (projectOf : List ((Nat × String) × String)) (initKey : String) :
    Finset String :=
  (initKey :: pushableKeys registry projectOf).toFinset

/-- An upper bound on how many keys one node's processing can push. -/
def pushBound (registry : List ((Nat × String) × List JBSuckersPair)) : Nat :=
  (registry.map (fun e => e.2.length)).sum

/-- The loop's termination measure. -/
def discMeasure (U : Finset String) (B : Nat) (st : DiscoveryState) : Nat :=
  (U.card - st.checkedCombinations.card) * (B + 1) + st.toCheck.length

/-- The loop invariant: pending and visited keys stay inside the finite
universe, and the process log is duplicate-free and visited. -/
def DiscoveryInv (U : Finset String) (st : DiscoveryState) : Prop :=
  (∀ k ∈ st.toCheck, mkKey k.1 k.2 ∈ U) ∧
  st.checkedCombinations ⊆ U ∧
  st.processLog.Nodup ∧
  (∀ k ∈ st.processLog, k ∈ st.checkedCombinations)

/-- Fuel sufficient for the whole traversal. -/
def discoverFuel (registry : List ((Nat × String) × List JBSuckersPair))
    (projectOf : List ((Nat × String) × String))
    (initialChainId : Nat) (initialProjectId : String) : Nat :=
  (keyUniverse registry projectOf (mkKey initialChainId initialProjectId)).card *
    (pushBound registry + 1) + 2

lemma processRawPair_toCheck_cases (projectOf : List ((Nat × String) × String))
    (chainId : Nat) (projectId : String) (checked : Finset String)
    (acc : List (String × SuckerPair) × Finset String × List (Nat × String))
    (rp : JBSuckersPair) :
    (processRawPair projectOf chainId projectId checked acc rp).2.2 = acc.2.2 ∨
    ∃ pid, jsMapGet projectOf (rp.remoteChainId, rp.remote) = some pid ∧
      (processRawPair projectOf chainId projectId checked acc rp).2.2 =
        (rp.remoteChainId, pid) :: acc.2.2 := by
  simp only [processRawPair]
  by_cases hmem : createSuckerPairId chainId rp.local_ rp.remoteChainId rp.remote ∈ acc.2.1
  · rw [if_pos hmem]
    exact Or.inl rfl
  · rw [if_neg hmem]
    rcases hget : jsMapGet projectOf (rp.remoteChainId, rp.remote) with _ | pid
    · exact Or.inl rfl
    · by_cases hck : mkKey rp.remoteChainId pid ∈ checked
      · left
        simp [hck]
      · right
        exact ⟨pid, rfl, by simp [hck]⟩

lemma foldl_processRawPair_toCheck (projectOf : List ((Nat × String) × String))
    (chainId : Nat) (projectId : String) (checked : Finset String)
    (rawPairs : List JBSuckersPair) :
    ∀ acc,
    (rawPairs.foldl (processRawPair projectOf chainId projectId checked) acc).2.2.length ≤
      acc.2.2.length + rawPairs.length ∧
    ∀ k ∈ (rawPairs.foldl (processRawPair projectOf chainId projectId checked) acc).2.2,
      k ∈ acc.2.2 ∨ ∃ rp ∈ rawPairs,
        jsMapGet projectOf (rp.remoteChainId, rp.remote) = some k.2 ∧
        k.1 = rp.remoteChainId := by
  induction rawPairs with
  | nil => intro acc; simp
  | cons rp rest ih =>
    intro acc
    rw [List.foldl_cons]
    obtain ⟨ih1, ih2⟩ := ih (processRawPair projectOf chainId projectId checked acc rp)
    have hstep := processRawPair_toCheck_cases projectOf chainId projectId checked acc rp
    constructor
    · rcases hstep with h | ⟨pid, _, h⟩
      · rw [h] at ih1
        simp only [List.length_cons]
        omega
      · rw [h] at ih1
        simp only [List.length_cons] at ih1 ⊢
        omega
    · intro k hk
      rcases ih2 k hk with hin | ⟨rp2, hrp2, hg, hc⟩
      · rcases hstep with h | ⟨pid, hget, h⟩
        · rw [h] at hin
          exact Or.inl hin
        · rw [h] at hin
          rcases List.mem_cons.mp hin with h2 | h2
          · right
            refine ⟨rp, List.mem_cons_self _ _, ?_, ?_⟩
            · rw [h2]
              exact hget
            · rw [h2]
          · exact Or.inl h2
      · exact Or.inr ⟨rp2, List.mem_cons_of_mem _ hrp2, hg, hc⟩

lemma discoverStep_visited {registry : List ((Nat × String) × List JBSuckersPair)}
    {projectOf : List ((Nat × String) × String)} {st : DiscoveryState}
    {c : Nat} {p : String} {rest : List (Nat × String)}
    (htc : st.toCheck = (c, p) :: rest)
    (hv : mkKey c p ∈ st.checkedCombinations) :
    discoverStep registry projectOf st = { st with toCheck := rest } := by
  simp only [discoverStep, htc]
  rw [if_pos hv]

lemma discoverStep_thrown {registry : List ((Nat × String) × List JBSuckersPair)}
    {projectOf : List ((Nat × String) × String)} {st : DiscoveryState}
    {c : Nat} {p : String} {rest : List (Nat × String)}
    (htc : st.toCheck = (c, p) :: rest)
    (hv : mkKey c p ∉ st.checkedCombinations)
    (hreg : jsMapGet registry (c, p) = none) :
    discoverStep registry projectOf st =
      { st with checkedCombinations := insert (mkKey c p) st.checkedCombinations,
                toCheck := rest,
                processLog := st.processLog ++ [mkKey c p] } := by
  simp only [discoverStep, htc]
  rw [if_neg hv, hreg]

lemma discoverStep_fetched {registry : List ((Nat × String) × List JBSuckersPair)}
    {projectOf : List ((Nat × String) × String)} {st : DiscoveryState}
    {c : Nat} {p : String} {rest : List (Nat × String)}
    {rawSuckerPairs : List JBSuckersPair}
    (htc : st.toCheck = (c, p) :: rest)
    (hv : mkKey c p ∉ st.checkedCombinations)
    (hreg : jsMapGet registry (c, p) = some rawSuckerPairs) :
    discoverStep registry projectOf st =
      { projectMappings := jsMapSet st.projectMappings (mkKey c p)
          { projectId := p, chainId := c, suckerPairs := rawSuckerPairs }
        suckerPairs := (rawSuckerPairs.foldl
          (processRawPair projectOf c p (insert (mkKey c p) st.checkedCombinations))
          (st.suckerPairs, st.processedPairs, rest)).1
        checkedCombinations := insert (mkKey c p) st.checkedCombinations
        processedPairs := (rawSuckerPairs.foldl
          (processRawPair projectOf c p (insert (mkKey c p) st.checkedCombinations))
          (st.suckerPairs, st.processedPairs, rest)).2.1
        toCheck := (rawSuckerPairs.foldl
          (processRawPair projectOf c p (insert (mkKey c p) st.checkedCombinations))
          (st.suckerPairs, st.processedPairs, rest)).2.2
        processLog := st.processLog ++ [mkKey c p] } := by
  simp only [discoverStep, htc]
  rw [if_neg hv, hreg]

lemma discoverLoop_succ_cons {registry : List ((Nat × String) × List JBSuckersPair)}
    {projectOf : List ((Nat × String) × String)} {st : DiscoveryState}
    {fuel : Nat} {x : Nat × String} {xs : List (Nat × String)}
    (htc : st.toCheck = x :: xs) :
    discoverLoop registry projectOf (fuel + 1) st =
      discoverLoop registry projectOf fuel (discoverStep registry projectOf st) := by
  simp only [discoverLoop, htc]

lemma mem_pushableKeys {registry : List ((Nat × String) × List JBSuckersPair)}
    {projectOf : List ((Nat × String) × String)} {c : Nat} {p : String}
    {rawPairs : List JBSuckersPair} {rp : JBSuckersPair} {pid : String}
    (hreg : jsMapGet registry (c, p) = some rawPairs) (hrp : rp ∈ rawPairs)
    (hpid : jsMapGet projectOf (rp.remoteChainId, rp.remote) = some pid) :
    mkKey rp.remoteChainId pid ∈ pushableKeys registry projectOf := by
  unfold pushableKeys
  rw [List.mem_flatMap]
  refine ⟨((c, p), rawPairs), jsMapGet_eq_some_mem hreg, ?_⟩
  rw [List.mem_filterMap]
  exact ⟨rp, hrp, by rw [hpid]; rfl⟩

lemma length_le_pushBound {registry : List ((Nat × String) × List JBSuckersPair)}
    {c : Nat} {p : String} {rawPairs : List JBSuckersPair}
    (hreg : jsMapGet registry (c, p) = some rawPairs) :
    rawPairs.length ≤ pushBound registry := by
  unfold pushBound
  exact List.single_le_sum (fun x _ => Nat.zero_le x) _
    (List.mem_map.mpr ⟨((c, p), rawPairs), jsMapGet_eq_some_mem hreg, rfl⟩)

/-- The worklist loop terminates (returns `some`) given fuel exceeding the
measure, and the resulting process log has no duplicate key. -/
lemma discoverLoop_terminates (registry : List ((Nat × String) × List JBSuckersPair))
    (projectOf : List ((Nat × String) × String)) (initKey : String) :
    ∀ (fuel : Nat) (st : DiscoveryState),
      DiscoveryInv (keyUniverse registry projectOf initKey) st →
      discMeasure (keyUniverse registry projectOf initKey) (pushBound registry) st < fuel →
      ∃ r, discoverLoop registry projectOf fuel st = some r ∧ r.processLog.Nodup := by
  intro fuel
  induction fuel with
  | zero => intro st _ hm; exact absurd hm (Nat.not_lt_zero _)
  | succ fuel ih =>
    intro st hinv hm
    obtain ⟨hToCheck, hChecked, hLogNd, hLogChecked⟩ := hinv
    rcases htc : st.toCheck with _ | ⟨⟨c, p⟩, rest⟩
    · refine ⟨st, ?_, hLogNd⟩
      simp [discoverLoop, htc]
    · have hkeyU : mkKey c p ∈ keyUniverse registry projectOf initKey := by
        apply hToCheck (c, p)
        rw [htc]
        exact List.mem_cons_self _ _
      rw [discoverLoop_succ_cons htc]
      by_cases hv : mkKey c p ∈ st.checkedCombinations
      · -- already-visited key: pop and continue
        rw [discoverStep_visited htc hv]
        apply ih
        · refine ⟨?_, hChecked, hLogNd, hLogChecked⟩
          intro k hk
          exact hToCheck k (htc ▸ List.mem_cons_of_mem _ hk)
        · unfold discMeasure at hm ⊢
          dsimp only
          rw [htc] at hm
          simp only [List.length_cons] at hm
          omega
      · have hcardlt : st.checkedCombinations.card <
            (keyUniverse registry projectOf initKey).card :=
          Finset.card_lt_card ((Finset.ssubset_iff_of_subset hChecked).mpr
            ⟨_, hkeyU, hv⟩)
        have hcardins : (insert (mkKey c p) st.checkedCombinations).card =
            st.checkedCombinations.card + 1 :=
          Finset.card_insert_of_not_mem hv
        have hLogNotMem : mkKey c p ∉ st.processLog :=
          fun hmem => hv (hLogChecked _ hmem)
        have hLogNd' : (st.processLog ++ [mkKey c p]).Nodup := by
          rw [List.nodup_append]
          refine ⟨hLogNd, List.nodup_singleton _, ?_⟩
          intro a ha hb
          rw [List.mem_singleton] at hb
          exact hLogNotMem (hb ▸ ha)
        have hChecked' : insert (mkKey c p) st.checkedCombinations ⊆
            keyUniverse registry projectOf initKey :=
          Finset.insert_subset hkeyU hChecked
        have hLogChecked' : ∀ k ∈ st.processLog ++ [mkKey c p],
            k ∈ insert (mkKey c p) st.checkedCombinations := by
          intro k hk
          rcases List.mem_append.mp hk with h | h
          · exact Finset.mem_insert_of_mem (hLogChecked k h)
          · rw [List.mem_singleton] at h
            rw [h]
            exact Finset.mem_insert_self _ _
        have hsub : (keyUniverse registry projectOf initKey).card -
            st.checkedCombinations.card =
            ((keyUniverse registry projectOf initKey).card -
              (st.checkedCombinations.card + 1)) + 1 := by omega
        have hmul : ((keyUniverse registry projectOf initKey).card -
              st.checkedCombinations.card) * (pushBound registry + 1) =
            ((keyUniverse registry projectOf initKey).card -
              (st.checkedCombinations.card + 1)) * (pushBound registry + 1) +
              (pushBound registry + 1) := by
          rw [hsub]
          ring
        rcases hreg : jsMapGet registry (c, p) with _ | rawPairs
        · -- registry fetch threw: branch abandoned
          rw [discoverStep_thrown htc hv hreg]
          apply ih
          · refine ⟨?_, hChecked', hLogNd', hLogChecked'⟩
            intro k hk
            exact hToCheck k (htc ▸ List.mem_cons_of_mem _ hk)
          · unfold discMeasure at hm ⊢
            dsimp only
            rw [htc] at hm
            simp only [List.length_cons] at hm
            rw [hcardins]
            omega
        · -- registry fetch succeeded: record mapping, process pairs, push
          rw [discoverStep_fetched htc hv hreg]
          obtain ⟨hflen, hfmem⟩ := foldl_processRawPair_toCheck projectOf c p
            (insert (mkKey c p) st.checkedCombinations) rawPairs
            (st.suckerPairs, st.processedPairs, rest)
          apply ih
          · refine ⟨?_, hChecked', hLogNd', hLogChecked'⟩
            intro k hk
            rcases hfmem k hk with h | ⟨rp, hrp, hg, hc1⟩
            · exact hToCheck k (htc ▸ List.mem_cons_of_mem _ h)
            · have hpk : mkKey k.1 k.2 ∈ pushableKeys registry projectOf := by
                rw [hc1]
                exact mem_pushableKeys hreg hrp hg
              unfold keyUniverse
              rw [List.mem_toFinset]
              exact List.mem_cons_of_mem _ hpk
          · have hB := length_le_pushBound hreg
            unfold discMeasure at hm ⊢
            dsimp only
            dsimp only at hflen
            rw [htc] at hm
            simp only [List.length_cons] at hm
            rw [hcardins]
            omega


/-- C5: for every finite pair graph (registry and project-id oracles),
`discoverAllSuckers` terminates — the explicitly computed fuel suffices —
and no `chainId-projectId` key has its registry pairs fetched more than
once during the traversal (the process log is duplicate-free). -/
theorem discoverAllSuckers_terminates
    (registry : List ((Nat × String) × List JBSuckersPair))
    (projectOf : List ((Nat × String) × String))
    (detect : Nat → String → Option SuckerBridgeInfo)
    (initialChainId : Nat) (initialProjectId : String) :
    ∃ (result : SuckerDiscoveryResult) (processLog : List String),
      discoverAllSuckers registry projectOf detect initialChainId initialProjectId
        (discoverFuel registry projectOf initialChainId initialProjectId) =
        some (result, processLog) ∧
      processLog.Nodup := by
  have hinv : DiscoveryInv
      (keyUniverse registry projectOf (mkKey initialChainId initialProjectId))
      { projectMappings := []
        suckerPairs := []
        checkedCombinations := ∅
        processedPairs := ∅
        toCheck := [(initialChainId, initialProjectId)]
        processLog := [] } := by
    refine ⟨?_, ?_, List.nodup_nil, ?_⟩
    · intro k hk
      rw [List.mem_singleton] at hk
      rw [hk]
      unfold keyUniverse
      rw [List.mem_toFinset]
      exact List.mem_cons_self _ _
    · intro x hx
      exact absurd hx (Finset.not_mem_empty x)
    · intro k hk
      cases hk
  have hmeas : discMeasure
      (keyUniverse registry projectOf (mkKey initialChainId initialProjectId))
      (pushBound registry)
      { projectMappings := []
        suckerPairs := []
        checkedCombinations := ∅
        processedPairs := ∅
        toCheck := [(initialChainId, initialProjectId)]
        processLog := [] } <
      discoverFuel registry projectOf initialChainId initialProjectId := by
    unfold discMeasure discoverFuel
    dsimp only
    rw [Finset.card_empty]
    simp only [List.length_singleton, Nat.sub_zero]
    omega
  obtain ⟨r, hr, hnd⟩ := discoverLoop_terminates registry projectOf
    (mkKey initialChainId initialProjectId)
    (discoverFuel registry projectOf initialChainId initialProjectId) _ hinv hmeas
  refine ⟨{ projectMappings := r.projectMappings
            suckerPairs := populateBridgeInfo detect r.suckerPairs },
          r.processLog, ?_, hnd⟩
  unfold discoverAllSuckers
  rw [hr]

end Juicerkle
